import Mathlib

/-!
# Order system: a shallow embedding of `main.c` / `order_system.h`

The C program keeps its data in fixed arrays of structs.  An array together with
the element count that the C functions receive (`orders` with `orders_count`, the
catalog `models` with `TOTAL_MODELS`) is a `List`; the stock slots and the per-customer
summary rows are maps from the slot number, and a write to a stock slot from
`MAX_PRODUCTS` on, which is outside `products[MAX_PRODUCTS]`, is the `none` result of
the function that does it, as is dereferencing the `NULL` that `get_model_by_name`
returns for an unknown model and a division by zero.  `int` is `Int`, wrapped to 32
bits where the claims depend on it (`average_product_size`).  `float` is `Float32`:
the values of IEEE 754 single precision, every operation rounded to nearest, ties to
even.  Customer names are strings compared by equality.  The scheduler takes the
conversion of the share expression of `prepare_for_stock` as the parameter
`share_units`; `float_share_units` is the conversion that the code performs.
-/

set_option maxRecDepth 100000

namespace OrderSystem

/-! ## Machine numbers -/

/-- Two's-complement wrap of an integer to the 32-bit `int`. -/
def wrap_int (x : Int) : Int := (x + 2 ^ 31) % 2 ^ 32 - 2 ^ 31

/-- A single-precision (`float`) value.  Every finite binary32 number is a whole multiple
of `2⁻¹⁴⁹`, so a finite value is kept as that multiple: `finite scaled` stands for
`scaled * 2⁻¹⁴⁹`.  The sign of a zero is not kept. -/
inductive Float32 where
  | finite (scaled : Int)
  | infinite (negative : Bool)
  | nan
deriving DecidableEq, Inhabited

/-- The value `1.0f` in multiples of `2⁻¹⁴⁹`. -/
def float_one : Nat := 2 ^ 149

/-- The number of low bits that single precision drops from `n / d` (`n`, `d` positive,
`d` doubled `fuel` times at most): the least `k` with `n / d < 2 ^ (24 + k)`. -/
def dropped_bits : Nat → Nat → Nat → Nat
  | 0, _, _ => 0
  | fuel + 1, n, d => if n < d * 2 ^ 24 then 0 else dropped_bits fuel n (2 * d) + 1

/-- The integer nearest to `p / q` (`q > 0`), the even one of two that are equally near. -/
def round_half_even (p : Int) (q : Nat) : Int :=
  if 2 * (p % q) < q then p / q
  else if (q : Int) < 2 * (p % q) then p / q + 1
  else if (p / q) % 2 = 0 then p / q
  else p / q + 1

/-- Rounding to single precision (to nearest, ties to even) of the number
`p / q * 2⁻¹⁴⁹`, `q > 0`: 24 significant bits, nothing finer than `2⁻¹⁴⁹`, and an
infinity from `2¹²⁸` on. -/
def round_scaled (p : Int) (q : Nat) : Float32 :=
  if p = 0 then .finite 0
  else
    if 2 ^ 128 * float_one ≤
        (round_half_even p (q * 2 ^ dropped_bits p.natAbs p.natAbs q)
          * 2 ^ dropped_bits p.natAbs p.natAbs q).natAbs then
      .infinite (decide (p < 0))
    else
      .finite (round_half_even p (q * 2 ^ dropped_bits p.natAbs p.natAbs q)
        * 2 ^ dropped_bits p.natAbs p.natAbs q)

/-- Conversion of an `int` to `float`. -/
def of_int (i : Int) : Float32 := round_scaled (i * float_one) 1

/-- The `float` negation. -/
def fneg : Float32 → Float32
  | .finite x => .finite (-x)
  | .infinite s => .infinite (!s)
  | .nan => .nan

/-- The `float` sum. -/
def fadd : Float32 → Float32 → Float32
  | .finite x, .finite y => round_scaled (x + y) 1
  | .finite _, .infinite s => .infinite s
  | .infinite s, .finite _ => .infinite s
  | .infinite s, .infinite t => if s = t then .infinite s else .nan
  | _, _ => .nan

/-- The `float` difference. -/
def fsub (a b : Float32) : Float32 := fadd a (fneg b)

/-- The `float` product. -/
def fmul : Float32 → Float32 → Float32
  | .finite x, .finite y => round_scaled (x * y) float_one
  | .finite x, .infinite s => if x = 0 then .nan else .infinite (xor (decide (x < 0)) s)
  | .infinite s, .finite y => if y = 0 then .nan else .infinite (xor s (decide (y < 0)))
  | .infinite s, .infinite t => .infinite (xor s t)
  | _, _ => .nan

/-- The `float` quotient; a zero divisor is taken as `+0.0`, which is what the
conversion of the `int` 0 gives. -/
def fdiv : Float32 → Float32 → Float32
  | .finite x, .finite y =>
    if y = 0 then (if x = 0 then .nan else .infinite (decide (x < 0)))
    else if 0 < y then round_scaled (x * float_one) y.natAbs
    else round_scaled (-(x * float_one)) y.natAbs
  | .finite _, .infinite _ => .finite 0
  | .infinite s, .finite y => .infinite (xor s (decide (y < 0)))
  | _, _ => .nan

/-- The comparison `<` of two `float` values. -/
def flt : Float32 → Float32 → Bool
  | .finite x, .finite y => decide (x < y)
  | .finite _, .infinite s => !s
  | .infinite s, .finite _ => s
  | .infinite s, .infinite t => s && !t
  | _, _ => false

/-- Conversion of a `float` to `int`: the fraction is dropped; a value outside `int`, an
infinity or NaN gives `INT_MIN`, the result of the x86 conversion instruction. -/
def to_int : Float32 → Int
  | .finite x =>
    if -2 ^ 31 ≤ x.tdiv float_one ∧ x.tdiv float_one < 2 ^ 31 then x.tdiv float_one
    else -2 ^ 31
  | _ => -2 ^ 31

/-- A numeral is the `float` of that value (exact below `2 ^ 24`). -/
instance (n : Nat) : OfNat Float32 n := ⟨of_int n⟩

/-- The C expression `available_space * ((float)count / total_orders * 100) / 100`
assigned to an `int`. -/
def float_share_units (available_space count total_orders : Int) : Int :=
  to_int (fdiv (fmul (of_int available_space)
    (fmul (fdiv (of_int count) (of_int total_orders)) (of_int 100))) (of_int 100))

/-! ## Data model (`order_system.h`) -/

/-- The `struct Order` record. -/
structure Order where
  timestamp : Int
  model : Char
  quantity : Int
  customer : String
  process_start_hour : Int
  process_end_hour : Int
  completed : Int
  processing : Int
deriving DecidableEq, Inhabited

/-- The `struct ModelInfo` record. -/
structure ModelInfo where
  model : Char
  cost : Float32
  price : Float32
  man_hours : Int
  space_required : Int
deriving DecidableEq, Inhabited

/-! ## Catalog lookup -/

/-- The constant `TOTAL_MODELS`, the number of entries of the catalog array. -/
def TOTAL_MODELS : Int := 4

/-- The function `get_model_by_name`: the first catalog entry whose `model` field is
`name`, `none` for the `NULL` result; `models` is the array of `TOTAL_MODELS` entries. -/
def get_model_by_name (name : Char) : List ModelInfo → Option ModelInfo
  | [] => none
  | m :: ms => if m.model = name then some m else get_model_by_name name ms

/-! ## The two exchange sorts -/

/-- The three assignments `temp = orders[i]; orders[i] = orders[j]; orders[j] = temp`. -/
def swap_orders (orders : List Order) (i j : Nat) : List Order :=
  match orders[i]?, orders[j]? with
  | some oi, some oj => (orders.set i oj).set j oi
  | _, _ => orders

/-- Body of the inner loop of `sort_by_priority` for the index pair `i`, `j`. -/
def priority_exchange (models : List ModelInfo) (i : Nat) (orders : List Order) (j : Nat) :
    Option (List Order) :=
  match orders[i]?, orders[j]? with
  | some oi, some oj =>
    if oi.timestamp = oj.timestamp then
      if oi.quantity < oj.quantity then
        some (swap_orders orders i j)
      else if oj.quantity = oi.quantity then
        match get_model_by_name oi.model models, get_model_by_name oj.model models with
        | some mi, some mj =>
          if flt (fsub mi.price mi.cost) (fsub mj.price mj.cost) = true then
            some (swap_orders orders i j)
          else some orders
        | _, _ => none
      else some orders
    else some orders
  | _, _ => none

/-- The function `sort_by_priority`, with `orders_count = orders.length`: `i` runs over
`0 .. orders_count - 1` and `j` over `i + 1 .. orders_count - 1`. -/
def sort_by_priority (models : List ModelInfo) (orders : List Order) : Option (List Order) :=
  (List.range orders.length).foldlM
    (fun os i =>
      (List.range' (i + 1) (orders.length - (i + 1))).foldlM (priority_exchange models i) os)
    orders

/-- Body of the inner loop of `sort_by_day` for the index pair `i`, `j`. -/
def day_exchange (i : Nat) (orders : List Order) (j : Nat) : List Order :=
  match orders[i]?, orders[j]? with
  | some oi, some oj => if oi.timestamp > oj.timestamp then swap_orders orders i j else orders
  | _, _ => orders

/-- The function `sort_by_day`, with `orders_count = orders.length`. -/
def sort_by_day (orders : List Order) : List Order :=
  (List.range orders.length).foldl
    (fun os i => (List.range' (i + 1) (orders.length - (i + 1))).foldl (day_exchange i) os)
    orders

/-- Margin of the model of an order as the code computes it, the `float` difference
`price - cost` (0 when the model is unknown). -/
def margin (models : List ModelInfo) (o : Order) : Float32 :=
  match get_model_by_name o.model models with
  | some m => fsub m.price m.cost
  | none => .finite 0

/-- The swap test of `sort_by_priority` read as a relation between the order in the
lower slot and the order in the higher slot: same timestamp, and the lower one has the
smaller quantity or, at equal quantity, the smaller margin. -/
def out_of_priority (models : List ModelInfo) (a b : Order) : Bool :=
  decide (a.timestamp = b.timestamp ∧
    (a.quantity < b.quantity ∨
      (b.quantity = a.quantity ∧ flt (margin models a) (margin models b) = true)))

/-- The swap test of `sort_by_day`. -/
def out_of_day (a b : Order) : Bool := decide (a.timestamp > b.timestamp)

/-! ## Stock and replenishment -/

/-- The `struct Product` record. -/
structure Product where
  model : Char
  quantity : Int
deriving DecidableEq, Inhabited

/-- The `struct Stock` record; `products` maps a slot number to its content. -/
structure Stock where
  products : Nat → Product
  occupied_space : Int
  products_index : Int

/-- The `struct SystemInfo` record (the fields `days_without_orders` and
`days_without_orders_index` are never read or written by `main.c`). -/
structure SystemInfo where
  storage_capacity : Int
  number_of_workers : Int
  average_product_size : Int
deriving DecidableEq, Inhabited

/-- The `struct ModelOrderingStats` record. -/
structure ModelOrderingStats where
  model_a_orders : Int
  model_b_orders : Int
  model_c_orders : Int
  model_d_orders : Int
  total_orders : Int
deriving DecidableEq, Inhabited

/-- The function `update_ordering_stats`. -/
def update_ordering_stats (model_name : Char) (orderingStats : ModelOrderingStats) :
    ModelOrderingStats :=
  if model_name = 'A' then
    { orderingStats with model_a_orders := orderingStats.model_a_orders + 1 }
  else if model_name = 'B' then
    { orderingStats with model_b_orders := orderingStats.model_b_orders + 1 }
  else if model_name = 'C' then
    { orderingStats with model_c_orders := orderingStats.model_c_orders + 1 }
  else if model_name = 'D' then
    { orderingStats with model_d_orders := orderingStats.model_d_orders + 1 }
  else orderingStats

/-- The loop of `sold_item_from_stock` from slot `i` on, with `remaining` slots left
below the cursor `products_index`. -/
def sold_item_scan (model : Char) (stock : Stock) : Nat → Nat → Bool × Stock
  | _, 0 => (false, stock)
  | i, remaining + 1 =>
    if (stock.products i).model = model then
      (true, { stock with products_index := stock.products_index - 1 })
    else sold_item_scan model stock (i + 1) remaining

/-- The function `sold_item_from_stock`: the result and the stock it leaves. -/
def sold_item_from_stock (model : Char) (stock : Stock) : Bool × Stock :=
  sold_item_scan model stock 0 stock.products_index.toNat

/-- The constant `MAX_PRODUCTS`, the number of slots of `products`. -/
def MAX_PRODUCTS : Nat := 100

/-- The loop of `prepare_product_for_model` with `remaining` iterations left: an iteration
whose guard `storage_capacity - space_required < 0` holds returns; otherwise the slot at
`stock_index` gains one unit, `occupied_space` grows and `stock_index` advances.  The
slots are `products[0 .. MAX_PRODUCTS - 1]`: a unit for a slot from `MAX_PRODUCTS` on is
written outside the array. -/
def prepare_units (model_info : ModelInfo) (system : SystemInfo) :
    Nat → Stock → Nat → Option (Stock × Nat)
  | 0, stock, stock_index => some (stock, stock_index)
  | remaining + 1, stock, stock_index =>
    if system.storage_capacity - model_info.space_required < 0 then
      some (stock, stock_index)
    else if MAX_PRODUCTS ≤ stock_index then none
    else
      prepare_units model_info system remaining
        { stock with
          products := Function.update stock.products stock_index
            { stock.products stock_index with
              quantity := (stock.products stock_index).quantity + 1 },
          occupied_space := stock.occupied_space + model_info.space_required }
        (stock_index + 1)

/-- The function `prepare_product_for_model`: the stock it leaves and the slot index it
returns.  The label is written to the slot at `stock_index` first, which must be a slot
of the array; `model_info` is dereferenced only inside the loop, so an unknown model is
an error only when at least one unit is requested. -/
def prepare_product_for_model (model : Char) (models : List ModelInfo) (stock : Stock)
    (system : SystemInfo) (product_to_prepare : Int) (stock_index : Nat) :
    Option (Stock × Nat) :=
  if MAX_PRODUCTS ≤ stock_index then none
  else
    let labelled : Stock :=
      { stock with
        products := Function.update stock.products stock_index
          { stock.products stock_index with model := model } }
    if product_to_prepare ≤ 0 then some (labelled, stock_index)
    else
      match get_model_by_name model models with
      | none => none
      | some model_info =>
        prepare_units model_info system product_to_prepare.toNat labelled stock_index

/-- The function `prepare_for_stock`.  The four unit counts are computed in C as
`available_space * ((float)count / total_orders * 100) / 100` converted to `int`, which
is `float_share_units`; the conversion is the parameter `share_units`, so that what holds
for every conversion is stated for every conversion, and the code is the instance
`prepare_for_stock float_share_units`.  A zero `average_product_size` is a division by
zero. -/
def prepare_for_stock (share_units : Int → Int → Int → Int) (stats : ModelOrderingStats)
    (system : SystemInfo) (stock : Stock) (models : List ModelInfo) : Option Stock :=
  if system.average_product_size = 0 then none
  else
    let available_space :=
      (system.storage_capacity - stock.occupied_space).tdiv system.average_product_size
    let model_a_stocks := share_units available_space stats.model_a_orders stats.total_orders
    let model_b_stocks := share_units available_space stats.model_b_orders stats.total_orders
    let model_c_stocks := share_units available_space stats.model_c_orders stats.total_orders
    let model_d_stocks := share_units available_space stats.model_d_orders stats.total_orders
    (prepare_product_for_model 'A' models stock system model_a_stocks 0).bind fun r1 =>
    (prepare_product_for_model 'B' models r1.1 system model_b_stocks r1.2).bind fun r2 =>
    (prepare_product_for_model 'C' models r2.1 system model_c_stocks r2.2).bind fun r3 =>
    (prepare_product_for_model 'D' models r3.1 system model_d_stocks r3.2).map fun r4 =>
      r4.1

/-- The function `average_product_size`; `models` is the array of `TOTAL_MODELS`
entries, and `products_space_sum` is a 32-bit `int`. -/
def average_product_size (models : List ModelInfo) : Int :=
  (models.foldl (fun products_space_sum m => wrap_int (products_space_sum + m.space_required))
    0).tdiv TOTAL_MODELS

/-! ## The scheduler -/

/-- The variables of `process_orders`: the four structures it updates through its
pointer arguments and its locals `processed_orders`, `stock_prepared_for_free_days`
and `hour_count`. -/
structure SimState where
  orders : List Order
  stats : ModelOrderingStats
  system : SystemInfo
  stock : Stock
  processed_orders : Int
  stock_prepared_for_free_days : Bool
  hour_count : Int

/-- The loop `for (k = last_order.timestamp + 1; k < orders[i].timestamp; ++k)` of
`process_orders` with `days` iterations left: one `prepare_for_stock` call per day. -/
def prepare_free_days (share_units : Int → Int → Int → Int) (stats : ModelOrderingStats)
    (system : SystemInfo) (models : List ModelInfo) : Nat → Stock → Option Stock
  | 0, stock => some stock
  | days + 1, stock =>
    (prepare_for_stock share_units stats system stock models).bind
      (prepare_free_days share_units stats system models days)

/-- The body of the `for` loop of `process_orders` for the order in slot `i`. -/
def process_order (share_units : Int → Int → Int → Int) (models : List ModelInfo)
    (i : Nat) (s : SimState) : Option SimState :=
  match s.orders[i]? with
  | none => none
  | some o =>
    let stats := update_ordering_stats o.model s.stats
    let last_order := if i = 0 then o else s.orders.getD (i - 1) o
    let model_info := get_model_by_name o.model models
    let prepared :=
      if s.stock_prepared_for_free_days = false ∧ o.timestamp - last_order.timestamp > 1 then
        prepare_free_days share_units stats s.system models
          (o.timestamp - last_order.timestamp - 1).toNat s.stock
      else some s.stock
    match prepared with
    | none => none
    | some stock1 =>
      let sold := sold_item_from_stock o.model stock1
      let s1 : SimState := { s with stats := stats, stock := sold.2 }
      if sold.1 = true then some s1
      else if o.processing ≠ 0 then
        if o.process_end_hour = s.hour_count then
          match model_info with
          | none => none
          | some mi =>
            some { s1 with
              orders := s.orders.set i { o with completed := 1, processing := 0 },
              system := { s.system with
                number_of_workers := s.system.number_of_workers + mi.man_hours },
              processed_orders := s.processed_orders + 1 }
        else some s1
      else if o.completed = 0 then
        match model_info with
        | none => none
        | some mi =>
          if mi.man_hours ≤ s.system.number_of_workers then
            some { s1 with
              orders := s.orders.set i
                { o with
                  process_start_hour := s.hour_count,
                  process_end_hour := s.hour_count + mi.man_hours,
                  processing := 1 },
              system := { s.system with
                number_of_workers := s.system.number_of_workers - mi.man_hours } }
          else some s1
      else some s1

/-- The first `k` iterations of the `for` loop of `process_orders`. -/
def scan_orders (share_units : Int → Int → Int → Int) (models : List ModelInfo) :
    Nat → SimState → Option SimState
  | 0, s => some s
  | k + 1, s => (scan_orders share_units models k s).bind (process_order share_units models k)

/-- One iteration of the `while` loop of `process_orders`: the `for` loop over
`total_orders` slots (the body never writes `total_orders`), then
`stock_prepared_for_free_days = true; hour_count++`. -/
def hour_pass (share_units : Int → Int → Int → Int) (models : List ModelInfo)
    (s : SimState) : Option SimState :=
  (scan_orders share_units models s.stats.total_orders.toNat s).map fun s1 =>
    { s1 with stock_prepared_for_free_days := true, hour_count := s1.hour_count + 1 }

/-- The `while (processed_orders < stats->total_orders)` loop, run for at most `fuel`
iterations; `none` when an iteration fails or the fuel ends before the loop does. -/
def process_hours (share_units : Int → Int → Int → Int) (models : List ModelInfo) :
    Nat → SimState → Option SimState
  | 0, s => if s.processed_orders < s.stats.total_orders then none else some s
  | fuel + 1, s =>
    if s.processed_orders < s.stats.total_orders then
      (hour_pass share_units models s).bind (process_hours share_units models fuel)
    else some s

/-- The variables of `process_orders` at its entry. -/
def initial_state (orders : List Order) (stats : ModelOrderingStats) (system : SystemInfo)
    (stock : Stock) : SimState :=
  { orders := orders, stats := stats, system := system, stock := stock,
    processed_orders := 0, stock_prepared_for_free_days := false, hour_count := 1 }

/-- The function `process_orders`, run for at most `fuel` hour passes. -/
def process_orders (share_units : Int → Int → Int → Int) (models : List ModelInfo)
    (fuel : Nat) (orders : List Order) (stats : ModelOrderingStats) (system : SystemInfo)
    (stock : Stock) : Option SimState :=
  process_hours share_units models fuel (initial_state orders stats system stock)

/-- The state after `h` complete iterations of the `while` loop. -/
def after_hours (share_units : Int → Int → Int → Int) (models : List ModelInfo) :
    Nat → SimState → Option SimState
  | 0, s => some s
  | h + 1, s =>
    (after_hours share_units models h s).bind fun s1 =>
      if s1.processed_orders < s1.stats.total_orders then hour_pass share_units models s1
      else none

/-- A point of the run of `process_orders`: the state after `h` complete hour passes
followed by the first `k` orders of the next pass. -/
def run_point (share_units : Int → Int → Int → Int) (models : List ModelInfo)
    (h k : Nat) (s : SimState) : Option SimState :=
  (after_hours share_units models h s).bind fun s1 =>
    if s1.processed_orders < s1.stats.total_orders then scan_orders share_units models k s1
    else none

/-! ## Notions used to state the scheduler's properties -/

/-- Man-hours of the model of an order (0 when the model is unknown). -/
def order_man_hours (models : List ModelInfo) (o : Order) : Int :=
  match get_model_by_name o.model models with
  | some mi => mi.man_hours
  | none => 0

/-- Sum of the man-hours of the orders that are currently Processing. -/
def busy_hours (models : List ModelInfo) (orders : List Order) : Int :=
  (orders.map fun o => if o.processing ≠ 0 then order_man_hours models o else 0).sum

/-- The single order of a one-order run once started at hour 1. -/
def started_order (mi : ModelInfo) (o : Order) : Order :=
  { o with process_start_hour := 1, process_end_hour := 1 + mi.man_hours, processing := 1 }

/-- The single order of a one-order run once completed. -/
def completed_order (mi : ModelInfo) (o : Order) : Order :=
  { o with
    process_start_hour := 1, process_end_hour := 1 + mi.man_hours, completed := 1,
    processing := 0 }

/-- A state of a one-order run in which the order is Processing, at the start of the
hour pass numbered `hour`. -/
def SingleProcessing (mi : ModelInfo) (W : Int) (o : Order) (hour : Int) (s : SimState) :
    Prop :=
  s.orders = [started_order mi o] ∧ s.system.number_of_workers = W - mi.man_hours ∧
    s.stock.products_index = 0 ∧ s.processed_orders = 0 ∧ s.hour_count = hour ∧
    s.stats.total_orders = 1

/-! ## Reporting: items sold to each customer -/

/-- The `struct ItemSoldStats` record. -/
structure ItemSoldStats where
  name : String
  model_a_products : Int
  model_b_products : Int
  model_c_products : Int
  model_d_products : Int
deriving DecidableEq, Inhabited

/-- The loop of `get_stats_from_customer_name` from row `i` on, with `remaining` rows
left below `stats_count`; the returned pointer is the row number. -/
def find_customer_row (name : String) (stats : Nat → ItemSoldStats) : Nat → Nat → Option Nat
  | _, 0 => none
  | i, remaining + 1 =>
    if (stats i).name = name then some i
    else find_customer_row name stats (i + 1) remaining

/-- The function `get_stats_from_customer_name` (`strcmp` is equality of names). -/
def get_stats_from_customer_name (name : String) (stats : Nat → ItemSoldStats)
    (stats_count : Nat) : Option Nat :=
  find_customer_row name stats 0 stats_count

/-- The `switch` of `calculate_items_sold_for_each_customer`. -/
def count_model (model : Char) (stat : ItemSoldStats) : ItemSoldStats :=
  if model = 'A' then { stat with model_a_products := stat.model_a_products + 1 }
  else if model = 'B' then { stat with model_b_products := stat.model_b_products + 1 }
  else if model = 'C' then { stat with model_c_products := stat.model_c_products + 1 }
  else if model = 'D' then { stat with model_d_products := stat.model_d_products + 1 }
  else stat

/-- The body of the loop of `calculate_items_sold_for_each_customer`: the table and the
row count `j` before and after one order. -/
def count_sold_item (acc : (Nat → ItemSoldStats) × Nat) (o : Order) :
    (Nat → ItemSoldStats) × Nat :=
  match get_stats_from_customer_name o.customer acc.1 acc.2 with
  | some row => (Function.update acc.1 row (count_model o.model (acc.1 row)), acc.2)
  | none =>
    (Function.update acc.1 acc.2
      (count_model o.model { acc.1 acc.2 with name := o.customer }), acc.2 + 1)

/-- The function `calculate_items_sold_for_each_customer`: the table it leaves and the
number of rows it returns. -/
def calculate_items_sold_for_each_customer (orders : List Order)
    (itemSoldStats : Nat → ItemSoldStats) : (Nat → ItemSoldStats) × Nat :=
  orders.foldl count_sold_item (itemSoldStats, 0)

/-! ## Notions used to state the summary's properties -/

/-- The counter of a summary row for model `m` (0 for a model outside A..D). -/
def sold_count (m : Char) (stat : ItemSoldStats) : Int :=
  if m = 'A' then stat.model_a_products
  else if m = 'B' then stat.model_b_products
  else if m = 'C' then stat.model_c_products
  else if m = 'D' then stat.model_d_products
  else 0

/-- The four counters of a summary row added up. -/
def sold_total (stat : ItemSoldStats) : Int :=
  stat.model_a_products + stat.model_b_products + stat.model_c_products
    + stat.model_d_products

/-- The names of the customers of an order list, in input order. -/
def customers (orders : List Order) : List String := orders.map fun o => o.customer

/-- What holds of the summary table and its row count after the orders `done` have been
counted: the rows below the count carry exactly the customer names seen, in order of
first appearance; each counter of such a row is the number of orders of that customer
for that model; the rows from the count on still have zero counters; and the counters
of all rows add up to the number of orders. -/
def SalesInv (done : List Order) (acc : (Nat → ItemSoldStats) × Nat) : Prop :=
  (∀ c, (∃ r, r < acc.2 ∧ (acc.1 r).name = c) ↔ c ∈ customers done) ∧
  (∀ r1 r2, r1 < r2 → r2 < acc.2 →
    (customers done).indexOf (acc.1 r1).name < (customers done).indexOf (acc.1 r2).name) ∧
  (∀ r, r < acc.2 → ∀ m, (m = 'A' ∨ m = 'B' ∨ m = 'C' ∨ m = 'D') →
    sold_count m (acc.1 r)
      = done.countP (fun o => decide (o.customer = (acc.1 r).name ∧ o.model = m))) ∧
  (∀ r, acc.2 ≤ r →
    (acc.1 r).model_a_products = 0 ∧ (acc.1 r).model_b_products = 0 ∧
    (acc.1 r).model_c_products = 0 ∧ (acc.1 r).model_d_products = 0) ∧
  (∑ r in Finset.range acc.2, sold_total (acc.1 r) = done.length)

/-! ## Exchange sorts in general -/

/-- One inner-loop step of an exchange sort whose swap test is `bad`. -/
def exchange (bad : Order → Order → Bool) (i : Nat) (orders : List Order) (j : Nat) :
    List Order :=
  match orders[i]?, orders[j]? with
  | some oi, some oj => if bad oi oj then swap_orders orders i j else orders
  | _, _ => orders

/-- The double loop shared by `sort_by_priority` and `sort_by_day`. -/
def exchange_sort (bad : Order → Order → Bool) (orders : List Order) : List Order :=
  (List.range orders.length).foldl
    (fun os i => (List.range' (i + 1) (orders.length - (i + 1))).foldl (exchange bad i) os)
    orders

/-- The lists `r` reachable from `l` by exchanging two slots whose orders agree on `k`. -/
inductive PeerSwaps (k : Order → Int) : List Order → List Order → Prop
  | refl (l : List Order) : PeerSwaps k l l
  | step {l r : List Order} (i j : Nat) (oi oj : Order) :
      PeerSwaps k l r → r[i]? = some oi → r[j]? = some oj → k oi = k oj →
      PeerSwaps k l (swap_orders r i j)

/-- No order in a slot below `i` fails the swap test against an order in a later slot. -/
def SortedBelow (bad : Order → Order → Bool) (i : Nat) (os : List Order) : Prop :=
  ∀ p q a b, p < i → p < q → os[p]? = some a → os[q]? = some b → bad a b = false

/-! ## The specification's reading of the priority order -/

/-- The place of a `float` value in the order of the extended reals, as a pair compared
first by its first and then by its second component; NaN, which `<` relates to nothing,
is put last. -/
def float_rank : Float32 → Int × Int
  | .finite x => (0, x)
  | .infinite true => (-1, 0)
  | .infinite false => (1, 0)
  | .nan => (2, 0)

/-- The comparator of the specification among orders of one timestamp: quantity
descending, then margin descending. -/
def priority_before (models : List ModelInfo) (a b : Order) : Bool :=
  decide (a.quantity > b.quantity ∨
    (a.quantity = b.quantity ∧
      ((float_rank (margin models a)).1 > (float_rank (margin models b)).1 ∨
        ((float_rank (margin models a)).1 = (float_rank (margin models b)).1 ∧
          (float_rank (margin models a)).2 ≥ (float_rank (margin models b)).2))))

/-- The specification's stable sort applied among same-timestamp orders: the orders of
each timestamp are sorted by insertion (which keeps tied orders in input order) and
written back, in that order, to the slots that the timestamp occupies in the input. -/
def stable_priority_sort (models : List ModelInfo) (orders : List Order) : List Order :=
  (List.range orders.length).map (fun p =>
    let t := (orders.getD p default).timestamp
    ((orders.filter (fun o => decide (o.timestamp = t))).insertionSort
        (fun a b => priority_before models a b = true)).getD
      ((orders.take p).countP (fun o => decide (o.timestamp = t))) default)

/-- What the priority order looks at: timestamp, quantity and margin. -/
def priority_key (models : List ModelInfo) (o : Order) : Int × Int × Float32 :=
  (o.timestamp, o.quantity, margin models o)

/-- The comparator of the specification on keys of one timestamp. -/
def key_before (x y : Int × Int × Float32) : Prop :=
  x.1 = y.1 ∧ (x.2.1 > y.2.1 ∨
    (x.2.1 = y.2.1 ∧
      ((float_rank x.2.2).1 > (float_rank y.2.2).1 ∨
        ((float_rank x.2.2).1 = (float_rank y.2.2).1 ∧
          (float_rank x.2.2).2 ≥ (float_rank y.2.2).2))))

/-- The margin of the specification, `price - cost` of the order's model without
rounding, in multiples of `2⁻¹⁴⁹` (0 when the model is unknown or an amount is not
finite). -/
def exact_margin (models : List ModelInfo) (o : Order) : Int :=
  match get_model_by_name o.model models with
  | some m =>
    match m.price, m.cost with
    | .finite p, .finite c => p - c
    | _, _ => 0
  | none => 0

/-! ## Reporting: the last twelve months -/

/-- The locals `model_a_stocks`, `model_b_stocks`, `model_c_stocks` and `model_d_stocks`
of `prepare_for_stock`. -/
def planned_units (share_units : Int → Int → Int → Int) (stats : ModelOrderingStats)
    (system : SystemInfo) (stock : Stock) : Option (Int × Int × Int × Int) :=
  if system.average_product_size = 0 then none
  else
    let available_space :=
      (system.storage_capacity - stock.occupied_space).tdiv system.average_product_size
    some (share_units available_space stats.model_a_orders stats.total_orders,
      share_units available_space stats.model_b_orders stats.total_orders,
      share_units available_space stats.model_c_orders stats.total_orders,
      share_units available_space stats.model_d_orders stats.total_orders)

/-- The demand counter of model `m` (0 for a model outside A..D). -/
def model_counter (m : Char) (stats : ModelOrderingStats) : Int :=
  if m = 'A' then stats.model_a_orders
  else if m = 'B' then stats.model_b_orders
  else if m = 'C' then stats.model_c_orders
  else if m = 'D' then stats.model_d_orders
  else 0

/-- The number of Completed orders of an order list. -/
def completed_count (orders : List Order) : Int :=
  (orders.map fun o => if o.completed ≠ 0 then 1 else 0).sum

/-- An order as read from `orders.dat`, not yet touched by the scheduler. -/
def pending_order (timestamp : Int) (model : Char) (quantity : Int) (customer : String) :
    Order :=
  { timestamp := timestamp, model := model, quantity := quantity, customer := customer,
    process_start_hour := 0, process_end_hour := 0, completed := 0, processing := 0 }

/-- Model A of the specification's scenario: cost 1, price 3, man-hours 2, space 1. -/
def scenario_model_a : ModelInfo :=
  { model := 'A', cost := 1, price := 3, man_hours := 2, space_required := 1 }

/-- A catalog of `TOTAL_MODELS` entries whose model A is the one of the scenario. -/
def scenario_models : List ModelInfo :=
  [ scenario_model_a,
    { model := 'B', cost := 2, price := 5, man_hours := 3, space_required := 2 },
    { model := 'C', cost := 2, price := 3, man_hours := 1, space_required := 3 },
    { model := 'D', cost := 4, price := 9, man_hours := 4, space_required := 9 } ]

/-- Two orders with the same timestamp, quantities 3 and 5. -/
def same_day_orders : List Order :=
  [pending_order 1 'A' 3 "X", pending_order 1 'A' 5 "Y"]

/-- Timestamps 1, 2, 1 with quantities 3, 1, 5. -/
def interleaved_orders : List Order :=
  [pending_order 1 'A' 3 "X", pending_order 2 'A' 1 "Y", pending_order 1 'A' 5 "Z"]

/-- The order of the specification's scenario: timestamp 1, model A, quantity 5,
customer X. -/
def scenario_order : Order := pending_order 1 'A' 5 "X"

/-- Demand statistics after loading the scenario's single order. -/
def scenario_stats : ModelOrderingStats :=
  { model_a_orders := 1, model_b_orders := 0, model_c_orders := 0, model_d_orders := 0,
    total_orders := 1 }

/-- The scenario's system: storage 100, 10 workers; the average product size of
`scenario_models` is 3. -/
def scenario_system : SystemInfo :=
  { storage_capacity := 100, number_of_workers := 10, average_product_size := 3 }

/-- An empty stock: every slot zero, nothing occupied, cursor 0. -/
def empty_stock : Stock :=
  { products := fun _ => { model := 'A', quantity := 0 }, occupied_space := 0,
    products_index := 0 }

/-- The unit count when the share is computed exactly:
`available_space * count / total_orders`, truncated. -/
def exact_share_units (available_space count total_orders : Int) : Int :=
  (available_space * count).tdiv total_orders

/-- A stock of capacity 10 that already occupies 8. -/
def nearly_full_stock : Stock :=
  { products := fun _ => { model := 'A', quantity := 0 }, occupied_space := 8,
    products_index := 0 }

/-- A system whose storage capacity is 10. -/
def small_system : SystemInfo :=
  { storage_capacity := 10, number_of_workers := 10, average_product_size := 3 }

/-- Demand statistics in which every order seen was for model D. -/
def all_d_stats : ModelOrderingStats :=
  { model_a_orders := 0, model_b_orders := 0, model_c_orders := 0, model_d_orders := 1,
    total_orders := 1 }

/-- A stock with one labelled slot below the cursor. -/
def one_slot_stock : Stock :=
  { products := fun _ => { model := 'A', quantity := 1 }, occupied_space := 1,
    products_index := 1 }

/-- A zero-initialised summary table. -/
def zero_table : Nat → ItemSoldStats :=
  fun _ =>
    { name := "", model_a_products := 0, model_b_products := 0, model_c_products := 0,
      model_d_products := 0 }

/-- Three orders of one timestamp; the first two tie completely. -/
def tied_orders : List Order :=
  [pending_order 1 'A' 1 "X", pending_order 1 'A' 1 "Y", pending_order 1 'A' 2 "Z"]

/-- Timestamps 1, 1, 2 with quantities 3, 5, 1. -/
def grouped_orders : List Order :=
  [pending_order 1 'A' 3 "X", pending_order 1 'A' 5 "Z", pending_order 2 'A' 1 "Y"]

/-- A catalog whose model A has the space requirement -1 and the other models 0. -/
def negative_space_models : List ModelInfo :=
  [ { model := 'A', cost := 1, price := 3, man_hours := 2, space_required := -1 },
    { model := 'B', cost := 2, price := 5, man_hours := 3, space_required := 0 },
    { model := 'C', cost := 2, price := 3, man_hours := 1, space_required := 0 },
    { model := 'D', cost := 4, price := 9, man_hours := 4, space_required := 0 } ]

/-- A stock whose only slot below the cursor is labelled A and holds quantity 0. -/
def unfilled_slot_stock : Stock :=
  { products := fun _ => { model := 'A', quantity := 0 }, occupied_space := 0,
    products_index := 1 }

/-- A catalog whose model A needs -1 man-hours. -/
def negative_hours_models : List ModelInfo :=
  [ { model := 'A', cost := 1, price := 3, man_hours := -1, space_required := 1 },
    { model := 'B', cost := 2, price := 5, man_hours := 3, space_required := 2 },
    { model := 'C', cost := 2, price := 3, man_hours := 1, space_required := 3 },
    { model := 'D', cost := 4, price := 9, man_hours := 4, space_required := 9 } ]

/-- A system without workers. -/
def idle_system : SystemInfo :=
  { storage_capacity := 100, number_of_workers := 0, average_product_size := 3 }

/-- A system with 3 workers; model D of `scenario_models` needs 4 man-hours. -/
def short_staffed_system : SystemInfo :=
  { storage_capacity := 100, number_of_workers := 3, average_product_size := 3 }

/-- One order of model A and one of model D, placed on consecutive days. -/
def two_model_orders : List Order :=
  [pending_order 1 'A' 5 "X", pending_order 2 'D' 1 "Y"]

/-- Demand statistics after loading `two_model_orders`. -/
def two_model_stats : ModelOrderingStats :=
  { model_a_orders := 1, model_b_orders := 0, model_c_orders := 0, model_d_orders := 1,
    total_orders := 2 }

/-- A catalog whose models A and B have the price 33554432 and the costs 1 and 0: the
margins 33554431 and 33554432 are the same number in single precision. -/
def rounding_models : List ModelInfo :=
  [ { model := 'A', cost := 1, price := 33554432, man_hours := 2, space_required := 1 },
    { model := 'B', cost := 0, price := 33554432, man_hours := 3, space_required := 2 },
    { model := 'C', cost := 2, price := 3, man_hours := 1, space_required := 3 },
    { model := 'D', cost := 4, price := 9, man_hours := 4, space_required := 9 } ]

/-- Two orders of one day and one quantity, of the models A and B. -/
def rounding_orders : List Order :=
  [pending_order 1 'A' 1 "X", pending_order 1 'B' 1 "Y"]

/-- A catalog whose model B has a price that is not a number. -/
def nan_models : List ModelInfo :=
  [ { model := 'A', cost := 1, price := 2, man_hours := 2, space_required := 1 },
    { model := 'B', cost := 1, price := .nan, man_hours := 3, space_required := 2 },
    { model := 'C', cost := 1, price := 3, man_hours := 1, space_required := 3 },
    { model := 'D', cost := 4, price := 9, man_hours := 4, space_required := 9 } ]

/-- Three orders of one day and one quantity, of the models A, B and C. -/
def nan_orders : List Order :=
  [pending_order 1 'A' 1 "X", pending_order 1 'B' 1 "Y", pending_order 1 'C' 1 "Z"]

/-- A catalog whose space requirements 2147483647, 2147483647, 1, 1 add up to
`2 ^ 32`, which is 0 in a 32-bit `int`. -/
def wrapping_models : List ModelInfo :=
  [ { model := 'A', cost := 1, price := 3, man_hours := 2, space_required := 2147483647 },
    { model := 'B', cost := 2, price := 5, man_hours := 3, space_required := 2147483647 },
    { model := 'C', cost := 2, price := 3, man_hours := 1, space_required := 1 },
    { model := 'D', cost := 4, price := 9, man_hours := 4, space_required := 1 } ]

theorem flt_trans (a b c : Float32) (h1 : flt a b = true) (h2 : flt b c = true) :
    flt a c = true := by
  cases a <;> cases b <;> cases c <;> simp_all [flt] <;> omega

theorem flt_asymm (a b : Float32) (h1 : flt a b = true) : flt b a = false := by
  cases a <;> cases b <;> simp_all [flt] <;> omega

theorem flt_iff_rank (a b : Float32) (ha : a ≠ .nan) (hb : b ≠ .nan) :
    flt a b = true ↔
      ((float_rank a).1 < (float_rank b).1 ∨
        ((float_rank a).1 = (float_rank b).1 ∧ (float_rank a).2 < (float_rank b).2)) := by
  cases a with
  | nan => exact absurd rfl ha
  | finite x =>
    cases b with
    | nan => exact absurd rfl hb
    | finite y => simp [flt, float_rank]
    | infinite t => cases t <;> simp [flt, float_rank]
  | infinite s =>
    cases b with
    | nan => exact absurd rfl hb
    | finite y => cases s <;> simp [flt, float_rank]
    | infinite t => cases s <;> cases t <;> simp [flt, float_rank]

theorem float_rank_injective (a b : Float32) (h1 : (float_rank a).1 = (float_rank b).1)
    (h2 : (float_rank a).2 = (float_rank b).2) : a = b := by
  cases a with
  | nan =>
    cases b with
    | nan => rfl
    | finite y => simp [float_rank] at h1
    | infinite t => cases t <;> simp [float_rank] at h1
  | finite x =>
    cases b with
    | nan => simp [float_rank] at h1
    | finite y => simp only [float_rank] at h2; rw [h2]
    | infinite t => cases t <;> simp [float_rank] at h1
  | infinite s =>
    cases b with
    | nan => cases s <;> simp [float_rank] at h1
    | finite y => cases s <;> simp [float_rank] at h1
    | infinite t => cases s <;> cases t <;> simp [float_rank] at h1 <;> rfl

/-! ## Lemmas: rounding to single precision -/

theorem dropped_bits_small (fuel n d : Nat) (h : n < d * 2 ^ 24) :
    dropped_bits fuel n d = 0 := by
  cases fuel with
  | zero => rfl
  | succ f =>
    unfold dropped_bits
    rw [if_pos h]

theorem length_swap_orders (l : List Order) (i j : Nat) :
    (swap_orders l i j).length = l.length := by
  unfold swap_orders; split <;> simp

theorem getElem?_swap_orders (l : List Order) (i j p : Nat) (hi : i < l.length)
    (hj : j < l.length) :
    (swap_orders l i j)[p]? = if p = j then l[i]? else if p = i then l[j]? else l[p]? := by
  unfold swap_orders
  rw [List.getElem?_eq_getElem hi, List.getElem?_eq_getElem hj]
  simp only [List.getElem?_set, List.length_set]
  by_cases h1 : j = p
  · subst h1; simp [hj]
  · by_cases h2 : i = p
    · subst h2; simp [hi, h1, Ne.symm h1]
    · simp [h1, h2, Ne.symm h1, Ne.symm h2]

theorem swap_orders_perm (l : List Order) (i j : Nat) : (swap_orders l i j).Perm l := by
  unfold swap_orders
  split
  · rename_i oi oj hoi hoj
    obtain ⟨hi, hoi⟩ := List.getElem?_eq_some_iff.mp hoi
    obtain ⟨hj, hoj⟩ := List.getElem?_eq_some_iff.mp hoj
    rw [List.perm_iff_count]
    intro a
    have hj2 : j < (l.set i oj).length := by simpa using hj
    rw [List.count_set _ _ _ _ hj2, List.count_set _ _ _ _ hi]
    have h3 : (l.set i oj)[j] = oj := by
      rw [List.getElem_set]; split
      · rfl
      · exact hoj
    rw [h3, hoi]
    have h4 : oi = a → 0 < l.count a := by
      intro h; subst h; rw [← hoi]; exact List.count_pos_iff.mpr (List.getElem_mem _)
    by_cases h5 : oi = a <;> by_cases h6 : oj = a <;> simp [h5, h6] <;>
      (try have := h4 h5) <;> omega
  · exact List.Perm.refl _

theorem length_exchange (bad : Order → Order → Bool) (i j : Nat) (os : List Order) :
    (exchange bad i os j).length = os.length := by
  unfold exchange
  split
  · split
    · exact length_swap_orders _ _ _
    · rfl
  · rfl

theorem length_exchange_row (bad : Order → Order → Bool) (i : Nat) (js : List Nat)
    (os : List Order) : (js.foldl (exchange bad i) os).length = os.length := by
  induction js generalizing os with
  | nil => rfl
  | cons j js ih => rw [List.foldl_cons, ih, length_exchange]

theorem sortedBelow_exchange (bad : Order → Order → Bool) (i j : Nat) (hij : i ≤ j)
    (os : List Order) (h : SortedBelow bad i os) : SortedBelow bad i (exchange bad i os j) := by
  unfold exchange
  split
  · rename_i oi oj hoi hoj
    split
    · obtain ⟨hi, -⟩ := List.getElem?_eq_some_iff.mp hoi
      obtain ⟨hj, -⟩ := List.getElem?_eq_some_iff.mp hoj
      intro p q a b hp hpq ha hb
      rw [getElem?_swap_orders _ _ _ _ hi hj] at ha hb
      rw [if_neg (by omega), if_neg (by omega)] at ha
      split at hb
      · exact h p i a b hp hp ha hb
      · split at hb
        · exact h p j a b hp (by omega) ha hb
        · exact h p q a b hp hpq ha hb
    · exact h
  · exact h

theorem sortedBelow_exchange_row (bad : Order → Order → Bool) (i : Nat) (js : List Nat)
    (hjs : ∀ j ∈ js, i ≤ j) (os : List Order) (h : SortedBelow bad i os) :
    SortedBelow bad i (js.foldl (exchange bad i) os) := by
  induction js generalizing os with
  | nil => exact h
  | cons j js ih =>
    rw [List.foldl_cons]
    exact ih (fun x hx => hjs x (List.mem_cons_of_mem _ hx)) _
      (sortedBelow_exchange bad i j (hjs j (List.mem_cons_self _ _)) os h)

theorem exchange_row_head (bad : Order → Order → Bool)
    (htrans : ∀ a b c, bad a b = true → bad b c = true → bad a c = true)
    (hasymm : ∀ a b, bad a b = true → bad b a = false)
    (i m : Nat) (os : List Order) :
    ∀ q a b, i < q → q ≤ i + m →
      ((List.range' (i + 1) m).foldl (exchange bad i) os)[i]? = some a →
      ((List.range' (i + 1) m).foldl (exchange bad i) os)[q]? = some b → bad a b = false := by
  induction m with
  | zero => intro q a b h1 h2; omega
  | succ m ih =>
    rw [List.range'_concat, List.foldl_append]
    simp only [List.foldl_cons, List.foldl_nil, Nat.one_mul]
    generalize (List.range' (i + 1) m).foldl (exchange bad i) os = os1 at ih ⊢
    intro q a b h1 h2
    unfold exchange
    split
    · rename_i oi oj hoi hoj
      obtain ⟨hi, -⟩ := List.getElem?_eq_some_iff.mp hoi
      obtain ⟨hj, -⟩ := List.getElem?_eq_some_iff.mp hoj
      split
      · rename_i hbad
        rw [getElem?_swap_orders _ _ _ _ hi hj, getElem?_swap_orders _ _ _ _ hi hj]
        rw [if_neg (by omega), if_pos rfl]
        intro ha hb
        rw [hoj] at ha
        cases ha
        split at hb
        · rw [hoi] at hb; cases hb
          exact hasymm _ _ hbad
        · rw [if_neg (by omega)] at hb
          have h3 := ih q oi b h1 (by omega) hoi hb
          cases h4 : bad a b
          · rfl
          · rw [htrans _ _ _ hbad h4] at h3; cases h3
      · rename_i hbad
        intro ha hb
        by_cases hq : q = i + 1 + m
        · subst hq
          rw [hoi] at ha; rw [hoj] at hb; cases ha; cases hb
          simpa using hbad
        · exact ih q a b h1 (by omega) ha hb
    · rename_i hnone
      intro ha hb
      by_cases hq : q = i + 1 + m
      · subst hq
        exact absurd hb (hnone a b ha)
      · exact ih q a b h1 (by omega) ha hb

theorem exchange_sort_sortedBelow (bad : Order → Order → Bool)
    (htrans : ∀ a b c, bad a b = true → bad b c = true → bad a c = true)
    (hasymm : ∀ a b, bad a b = true → bad b a = false)
    (n k : Nat) (os : List Order) (hn : os.length = n) :
    SortedBelow bad k ((List.range k).foldl
      (fun os i => (List.range' (i + 1) (n - (i + 1))).foldl (exchange bad i) os) os) ∧
    ((List.range k).foldl
      (fun os i => (List.range' (i + 1) (n - (i + 1))).foldl (exchange bad i) os) os).length
      = n := by
  induction k with
  | zero =>
    refine ⟨?_, hn⟩
    intro p q a b hp; omega
  | succ k ih =>
    rw [List.range_succ, List.foldl_append]
    simp only [List.foldl_cons, List.foldl_nil]
    generalize (List.range k).foldl
      (fun os i => (List.range' (i + 1) (n - (i + 1))).foldl (exchange bad i) os) os = os1
      at ih ⊢
    obtain ⟨ih1, ih2⟩ := ih
    refine ⟨?_, by rw [length_exchange_row, ih2]⟩
    intro p q a b hp hpq ha hb
    by_cases hpk : p < k
    · refine sortedBelow_exchange_row bad k _ ?_ os1 ih1 p q a b hpk hpq ha hb
      intro j hj
      have := (List.mem_range'_1.mp hj).1
      omega
    · have hpk2 : p = k := by omega
      subst hpk2
      obtain ⟨hq, -⟩ := List.getElem?_eq_some_iff.mp hb
      rw [length_exchange_row, ih2] at hq
      exact exchange_row_head bad htrans hasymm p _ os1 q a b hpq (by omega) ha hb

theorem exchange_sort_sorted (bad : Order → Order → Bool)
    (htrans : ∀ a b c, bad a b = true → bad b c = true → bad a c = true)
    (hasymm : ∀ a b, bad a b = true → bad b a = false)
    (os : List Order) (p q : Nat) (a b : Order) (hpq : p < q)
    (ha : (exchange_sort bad os)[p]? = some a) (hb : (exchange_sort bad os)[q]? = some b) :
    bad a b = false := by
  have h := exchange_sort_sortedBelow bad htrans hasymm os.length os.length os rfl
  obtain ⟨hq, -⟩ := List.getElem?_eq_some_iff.mp hb
  have hlen : (exchange_sort bad os).length = os.length := h.2
  exact h.1 p q a b (by omega) hpq ha hb


theorem peerSwaps_exchange (k : Order → Int) (bad : Order → Order → Bool)
    (hk : ∀ a b, bad a b = true → k a = k b) (i j : Nat) (l r : List Order)
    (h : PeerSwaps k l r) : PeerSwaps k l (exchange bad i r j) := by
  unfold exchange
  split
  · rename_i oi oj hoi hoj
    split
    · rename_i hbad
      exact PeerSwaps.step i j oi oj h hoi hoj (hk _ _ hbad)
    · exact h
  · exact h

theorem peerSwaps_exchange_row (k : Order → Int) (bad : Order → Order → Bool)
    (hk : ∀ a b, bad a b = true → k a = k b) (i : Nat) (js : List Nat) (l r : List Order)
    (h : PeerSwaps k l r) : PeerSwaps k l (js.foldl (exchange bad i) r) := by
  induction js generalizing r with
  | nil => exact h
  | cons j js ih => exact ih _ (peerSwaps_exchange k bad hk i j l r h)

theorem peerSwaps_exchange_sort (k : Order → Int) (bad : Order → Order → Bool)
    (hk : ∀ a b, bad a b = true → k a = k b) (l : List Order) :
    PeerSwaps k l (exchange_sort bad l) := by
  unfold exchange_sort
  generalize List.range l.length = is
  generalize hn : l.length = n
  have key : ∀ r, PeerSwaps k l r → PeerSwaps k l (is.foldl
      (fun os i => (List.range' (i + 1) (n - (i + 1))).foldl (exchange bad i) os) r) := by
    induction is with
    | nil => intro r h; exact h
    | cons i is ih =>
      intro r h
      exact ih _ (peerSwaps_exchange_row k bad hk i _ l r h)
  exact key l (PeerSwaps.refl l)

theorem PeerSwaps.length_eq {k : Order → Int} {l r : List Order} (h : PeerSwaps k l r) :
    r.length = l.length := by
  induction h with
  | refl => rfl
  | step i j oi oj _ _ _ _ ih => rw [length_swap_orders, ih]

theorem PeerSwaps.perm {k : Order → Int} {l r : List Order} (h : PeerSwaps k l r) :
    r.Perm l := by
  induction h with
  | refl => exact List.Perm.refl _
  | step i j oi oj _ _ _ _ ih => exact (swap_orders_perm _ i j).trans ih

theorem PeerSwaps.key_eq {k : Order → Int} {l r : List Order} (h : PeerSwaps k l r)
    (p : Nat) : (r[p]?).map k = (l[p]?).map k := by
  induction h generalizing p with
  | refl => rfl
  | step i j oi oj _ hoi hoj hk ih =>
    obtain ⟨hi, -⟩ := List.getElem?_eq_some_iff.mp hoi
    obtain ⟨hj, -⟩ := List.getElem?_eq_some_iff.mp hoj
    rw [getElem?_swap_orders _ _ _ _ hi hj, ← ih]
    split
    · rename_i h1; subst h1; rw [hoi, hoj]; simp [hk]
    · split
      · rename_i h1 h2; subst h2; rw [hoi, hoj]; simp [hk]
      · rfl

theorem PeerSwaps.tracked {k : Order → Int} {l r : List Order} (h : PeerSwaps k l r) :
    ∃ σ : Equiv.Perm ℕ, ∀ x, r[σ x]? = l[x]? := by
  induction h with
  | refl => exact ⟨Equiv.refl ℕ, fun x => rfl⟩
  | step i j oi oj _ hoi hoj hk ih =>
    obtain ⟨σ, hσ⟩ := ih
    obtain ⟨hi, -⟩ := List.getElem?_eq_some_iff.mp hoi
    obtain ⟨hj, -⟩ := List.getElem?_eq_some_iff.mp hoj
    refine ⟨σ.trans (Equiv.swap i j), fun x => ?_⟩
    rw [getElem?_swap_orders _ _ _ _ hi hj, ← hσ x]
    simp only [Equiv.trans_apply, Equiv.swap_apply_def]
    by_cases h1 : σ x = i
    · by_cases h2 : i = j
      · simp [h1, h2]
      · simp [h1, h2]
    · by_cases h2 : σ x = j
      · have h3 : j ≠ i := fun h => h1 (h2.trans h)
        simp [h2, h3, Ne.symm h3]
      · simp [h1, h2]

/-! ## Lemmas: the two sorts are exchange sorts -/

theorem get_model_by_name_isSome (name : Char) (models : List ModelInfo)
    (h : ∃ m ∈ models, m.model = name) : ∃ m, get_model_by_name name models = some m := by
  induction models with
  | nil => obtain ⟨m, hm, -⟩ := h; cases hm
  | cons m ms ih =>
    unfold get_model_by_name
    split
    · exact ⟨m, rfl⟩
    · rename_i hne
      obtain ⟨m2, hm2, hname⟩ := h
      rcases List.mem_cons.mp hm2 with rfl | hmem
      · exact absurd hname hne
      · exact ih ⟨m2, hmem, hname⟩

theorem priority_exchange_eq (models : List ModelInfo) (i j : Nat) (os : List Order)
    (hi : i < os.length) (hj : j < os.length)
    (hcat : ∀ o ∈ os, ∃ m ∈ models, m.model = o.model) :
    priority_exchange models i os j = some (exchange (out_of_priority models) i os j) := by
  unfold priority_exchange exchange
  rw [List.getElem?_eq_getElem hi, List.getElem?_eq_getElem hj]
  obtain ⟨mi, hmi⟩ := get_model_by_name_isSome _ models (hcat _ (List.getElem_mem hi))
  obtain ⟨mj, hmj⟩ := get_model_by_name_isSome _ models (hcat _ (List.getElem_mem hj))
  simp only [hmi, hmj, out_of_priority, margin]
  by_cases h1 : os[i].timestamp = os[j].timestamp
  · by_cases h2 : os[i].quantity < os[j].quantity
    · simp [h1, h2]
    · by_cases h3 : os[j].quantity = os[i].quantity
      · by_cases h4 : flt (fsub mi.price mi.cost) (fsub mj.price mj.cost) = true
        · simp [h1, h2, h3, h4]
        · simp [h1, h2, h3, h4]
      · simp [h1, h2, h3]
  · simp [h1]

theorem foldlM_eq_some_foldl {α β : Type} (f : β → α → Option β) (g : β → α → β)
    (P : β → Prop) (l : List α)
    (hstep : ∀ b, ∀ a ∈ l, P b → f b a = some (g b a) ∧ P (g b a)) (b : β) (hb : P b) :
    l.foldlM f b = some (l.foldl g b) ∧ P (l.foldl g b) := by
  induction l generalizing b with
  | nil => exact ⟨rfl, hb⟩
  | cons a l ih =>
    obtain ⟨h1, h2⟩ := hstep b a (List.mem_cons_self _ _) hb
    rw [List.foldlM_cons, h1, List.foldl_cons]
    exact ih (fun b2 a2 ha2 => hstep b2 a2 (List.mem_cons_of_mem _ ha2)) _ h2

theorem mem_exchange (bad : Order → Order → Bool) (i j : Nat) (os : List Order) (o : Order)
    (h : o ∈ exchange bad i os j) : o ∈ os := by
  unfold exchange at h
  split at h
  · split at h
    · exact (swap_orders_perm os i j).mem_iff.mp h
    · exact h
  · exact h

theorem sort_by_priority_eq (models : List ModelInfo) (orders : List Order)
    (hcat : ∀ o ∈ orders, ∃ m ∈ models, m.model = o.model) :
    sort_by_priority models orders = some (exchange_sort (out_of_priority models) orders) := by
  unfold sort_by_priority exchange_sort
  refine (foldlM_eq_some_foldl _ _
    (fun os => os.length = orders.length ∧ ∀ o ∈ os, ∃ m ∈ models, m.model = o.model)
    _ ?_ orders ⟨rfl, hcat⟩).1
  intro os i hi hP
  have hi2 : i < orders.length := List.mem_range.mp hi
  refine foldlM_eq_some_foldl _ _
    (fun os => os.length = orders.length ∧ ∀ o ∈ os, ∃ m ∈ models, m.model = o.model)
    _ ?_ os hP
  intro os2 j hj hP2
  have hj2 := List.mem_range'_1.mp hj
  refine ⟨priority_exchange_eq models i j os2 (by omega) (by omega) hP2.2, ?_, ?_⟩
  · rw [length_exchange]; exact hP2.1
  · intro o ho
    exact hP2.2 o (mem_exchange _ _ _ _ _ ho)

theorem sort_by_day_eq (orders : List Order) :
    sort_by_day orders = exchange_sort out_of_day orders := by
  have h : day_exchange = exchange out_of_day := by
    funext i os j
    unfold day_exchange exchange out_of_day
    split
    · simp
    · rfl
  unfold sort_by_day exchange_sort
  rw [h]

theorem out_of_priority_trans (models : List ModelInfo) (a b c : Order)
    (h1 : out_of_priority models a b = true) (h2 : out_of_priority models b c = true) :
    out_of_priority models a c = true := by
  unfold out_of_priority at *
  simp only [decide_eq_true_eq] at *
  refine ⟨h1.1.trans h2.1, ?_⟩
  rcases h1.2 with q1 | ⟨q1, m1⟩
  · rcases h2.2 with q2 | ⟨q2, -⟩
    · left; omega
    · left; omega
  · rcases h2.2 with q2 | ⟨q2, m2⟩
    · left; omega
    · right
      exact ⟨by omega, flt_trans _ _ _ m1 m2⟩

theorem out_of_priority_asymm (models : List ModelInfo) (a b : Order)
    (h1 : out_of_priority models a b = true) : out_of_priority models b a = false := by
  unfold out_of_priority at *
  simp only [decide_eq_true_eq, decide_eq_false_iff_not] at *
  rintro ⟨-, h2⟩
  rcases h1.2 with q1 | ⟨q1, m1⟩
  · rcases h2 with q2 | ⟨q2, -⟩
    · omega
    · omega
  · rcases h2 with q2 | ⟨q2, m2⟩
    · omega
    · have := flt_asymm _ _ m1
      rw [m2] at this
      cases this

theorem out_of_priority_timestamp (models : List ModelInfo) (a b : Order)
    (h1 : out_of_priority models a b = true) : a.timestamp = b.timestamp := by
  unfold out_of_priority at h1
  simp only [decide_eq_true_eq] at h1
  exact h1.1

/-! ## Claims about `sort_by_priority` and `sort_by_day` -/

/-- C1 as stated fails: the code compares the margins in single precision.  For a model
A with price 33554432 and cost 1 and a model B with price 33554432 and cost 0 the
`float` difference is 33554432 for both (33554431 is not a `float` and is rounded), so
of two orders with the same timestamp and the same quantity the one of model A, placed
first, stays first, although its margin 33554431 is below the margin 33554432 of the
second. -/
theorem sort_by_priority_rounded_margin_counterexample :
    (∀ o ∈ rounding_orders, ∃ m ∈ rounding_models, m.model = o.model) ∧
    rounding_orders.map (fun o => (o.timestamp, o.quantity, o.model))
      = [(1, 1, 'A'), (1, 1, 'B')] ∧
    rounding_orders.map (exact_margin rounding_models)
      = [33554431 * float_one, 33554432 * float_one] ∧
    rounding_orders.map (margin rounding_models)
      = [.finite (33554432 * float_one), .finite (33554432 * float_one)] ∧
    ∃ out, sort_by_priority rounding_models rounding_orders = some out ∧
      ∃ (i j : ℕ) (a b : Order), i < j ∧ out[i]? = some a ∧ out[j]? = some b ∧
        a.timestamp = b.timestamp ∧
        ¬ (a.quantity > b.quantity ∨
          (a.quantity = b.quantity ∧
            exact_margin rounding_models a ≥ exact_margin rounding_models b)) :=
  ⟨by decide, by decide, by decide, by decide, rounding_orders, by decide, 0, 1,
    pending_order 1 'A' 1 "X", pending_order 1 'B' 1 "Y", by decide, by decide, by decide,
    by decide, by decide⟩

/-- C1, amended: for an order list whose models are all in the catalog,
`sort_by_priority` returns, and any two orders of its output that have the same
timestamp appear in quantity-descending order, those with equal quantity in descending
order of the margin as the code computes it, the single-precision difference
`price - cost`: the computed margin of the earlier one is not below that of the later
one. -/
theorem sort_by_priority_peers_sorted (models : List ModelInfo) (orders : List Order)
    (hcat : ∀ o ∈ orders, ∃ m ∈ models, m.model = o.model) :
    ∃ out, sort_by_priority models orders = some out ∧
      ∀ (i j : ℕ) (a b : Order), i < j → out[i]? = some a → out[j]? = some b →
        a.timestamp = b.timestamp →
        a.quantity > b.quantity ∨
          (a.quantity = b.quantity ∧ flt (margin models a) (margin models b) = false) := by
  refine ⟨_, sort_by_priority_eq models orders hcat, ?_⟩
  intro i j a b hij ha hb hts
  have h := exchange_sort_sorted (out_of_priority models) (out_of_priority_trans models)
    (out_of_priority_asymm models) orders i j a b hij ha hb
  unfold out_of_priority at h
  simp only [decide_eq_false_iff_not, not_and, not_or, not_lt] at h
  obtain ⟨hq, hm⟩ := h hts
  by_cases heq : a.quantity = b.quantity
  · right
    refine ⟨heq, ?_⟩
    cases hf : flt (margin models a) (margin models b) with
    | false => rfl
    | true => exact absurd hf (hm heq.symm)
  · left
    omega

/-- C1, witness: of two orders with the same timestamp and quantities 3 and 5, the
quantity-5 order comes out first. -/
theorem sort_by_priority_peers_sorted_witness :
    (∀ o ∈ same_day_orders, ∃ m ∈ scenario_models, m.model = o.model) ∧
    sort_by_priority scenario_models same_day_orders
      = some [pending_order 1 'A' 5 "Y", pending_order 1 'A' 3 "X"] ∧
    ∃ out, sort_by_priority scenario_models same_day_orders = some out ∧
      ∀ (i j : ℕ) (a b : Order), i < j → out[i]? = some a → out[j]? = some b →
        a.timestamp = b.timestamp →
        a.quantity > b.quantity ∨
          (a.quantity = b.quantity ∧
            flt (margin scenario_models a) (margin scenario_models b) = false) :=
  ⟨by decide, by decide,
    sort_by_priority_peers_sorted scenario_models same_day_orders (by decide)⟩

/-- C2 as stated fails: on the timestamps 1, 2, 1 with quantities 3, 1, 5 no way of
following the orders from the input to the output of `sort_by_priority` keeps every
pair of orders with different timestamps in its input order (the quantity-3 order of
timestamp 1 ends behind the order of timestamp 2). -/
theorem sort_by_priority_interleaved_counterexample :
    ¬ ∃ out, sort_by_priority scenario_models interleaved_orders = some out ∧
        ∃ σ : Equiv.Perm ℕ, (∀ i, out[σ i]? = interleaved_orders[i]?) ∧
          ∀ (i j : ℕ) (x y : Order), i < j → interleaved_orders[i]? = some x →
            interleaved_orders[j]? = some y → x.timestamp ≠ y.timestamp → σ i < σ j := by
  rintro ⟨out, hout, σ, hσ, hord⟩
  have hval : sort_by_priority scenario_models interleaved_orders
      = some [pending_order 1 'A' 5 "Z", pending_order 2 'A' 1 "Y",
          pending_order 1 'A' 3 "X"] := by decide
  rw [hval] at hout
  cases hout
  have h0 := hσ 0
  have h1 := hσ 1
  have hlt := hord 0 1 (pending_order 1 'A' 3 "X") (pending_order 2 'A' 1 "Y")
    (by decide) rfl rfl (by decide)
  generalize σ 0 = a at h0 hlt
  generalize σ 1 = b at h1 hlt
  have ha : a = 2 := by
    match a, h0 with
    | 0, h => exact absurd h (by decide)
    | 1, h => exact absurd h (by decide)
    | 2, _ => rfl
    | n + 3, h => simp [interleaved_orders] at h
  have hb : b = 1 := by
    match b, h1 with
    | 0, h => exact absurd h (by decide)
    | 1, _ => rfl
    | 2, h => exact absurd h (by decide)
    | n + 3, h => simp [interleaved_orders] at h
  omega

/-- C2, amended: `sort_by_priority` moves orders only between slots of the same
timestamp (every slot keeps its timestamp), so an order x that precedes an order y of
another timestamp still precedes it in the output whenever the two timestamp groups are
not interleaved in the input (every order with the timestamp of x stands before every
order with the timestamp of y).  The orders are followed from input slot `i` to output
slot `σ i`. -/
theorem sort_by_priority_keeps_separated_groups (models : List ModelInfo)
    (orders : List Order) (hcat : ∀ o ∈ orders, ∃ m ∈ models, m.model = o.model) :
    ∃ out, sort_by_priority models orders = some out ∧
      ∃ σ : Equiv.Perm ℕ, (∀ i, out[σ i]? = orders[i]?) ∧
        (∀ p : ℕ, (out[p]?).map (fun o => o.timestamp)
          = (orders[p]?).map (fun o => o.timestamp)) ∧
        ∀ (i j : ℕ) (x y : Order), i < j → orders[i]? = some x → orders[j]? = some y →
          x.timestamp ≠ y.timestamp →
          (∀ (p q : ℕ) (a b : Order), orders[p]? = some a → orders[q]? = some b →
            a.timestamp = x.timestamp → b.timestamp = y.timestamp → p < q) →
          σ i < σ j := by
  refine ⟨_, sort_by_priority_eq models orders hcat, ?_⟩
  have hps := peerSwaps_exchange_sort (fun o => o.timestamp) (out_of_priority models)
    (out_of_priority_timestamp models) orders
  obtain ⟨σ, hσ⟩ := hps.tracked
  refine ⟨σ, hσ, hps.key_eq, ?_⟩
  intro i j x y _ hx hy _ hsep
  have hkx := hps.key_eq (σ i)
  have hky := hps.key_eq (σ j)
  rw [hσ i, hx] at hkx
  rw [hσ j, hy] at hky
  cases ha : orders[σ i]? with
  | none => rw [ha] at hkx; cases hkx
  | some a =>
    cases hb : orders[σ j]? with
    | none => rw [hb] at hky; cases hky
    | some b =>
      rw [ha] at hkx
      rw [hb] at hky
      simp only [Option.map_some', Option.some.injEq] at hkx hky
      exact hsep (σ i) (σ j) a b ha hb hkx.symm hky.symm

/-- C2, witness: timestamps 1, 1, 2, where the two groups are not interleaved; both
orders of timestamp 1 stay before the order of timestamp 2. -/
theorem sort_by_priority_keeps_separated_groups_witness :
    (∀ o ∈ grouped_orders, ∃ m ∈ scenario_models, m.model = o.model) ∧
    sort_by_priority scenario_models grouped_orders
      = some [pending_order 1 'A' 5 "Z", pending_order 1 'A' 3 "X",
          pending_order 2 'A' 1 "Y"] ∧
    ∃ out, sort_by_priority scenario_models grouped_orders = some out ∧
      ∃ σ : Equiv.Perm ℕ,
        (∀ i, out[σ i]? = grouped_orders[i]?) ∧ σ 0 < σ 2 ∧ σ 1 < σ 2 := by
  refine ⟨by decide, by decide, ?_⟩
  obtain ⟨out, hout, σ, hσ, -, hord⟩ :=
    sort_by_priority_keeps_separated_groups scenario_models grouped_orders (by decide)
  have hsep : ∀ (p q : ℕ) (a b : Order), grouped_orders[p]? = some a →
      grouped_orders[q]? = some b → a.timestamp = 1 → b.timestamp = 2 → p < q := by
    intro p q a b ha hb hta htb
    match p, q, ha, hb with
    | 0, 2, _, _ => decide
    | 1, 2, _, _ => decide
    | 2, _, ha, _ =>
      simp only [grouped_orders, List.getElem?_cons_succ, List.getElem?_cons_zero,
        Option.some.injEq] at ha
      rw [← ha] at hta
      exact absurd hta (by decide)
    | _, 0, _, hb =>
      simp only [grouped_orders, List.getElem?_cons_zero, Option.some.injEq] at hb
      rw [← hb] at htb
      exact absurd htb (by decide)
    | _, 1, _, hb =>
      simp only [grouped_orders, List.getElem?_cons_succ, List.getElem?_cons_zero,
        Option.some.injEq] at hb
      rw [← hb] at htb
      exact absurd htb (by decide)
    | n + 3, _, ha, _ => simp [grouped_orders] at ha
    | _, n + 3, _, hb => simp [grouped_orders] at hb
  exact ⟨out, hout, σ, hσ,
    hord 0 2 (pending_order 1 'A' 3 "X") (pending_order 2 'A' 1 "Y") (by decide) rfl rfl
      (by decide) hsep,
    hord 1 2 (pending_order 1 'A' 5 "Z") (pending_order 2 'A' 1 "Y") (by decide) rfl rfl
      (by decide) hsep⟩

/-- C4: the output of `sort_by_day` is a permutation of the input and is sorted by
timestamp in non-decreasing order. -/
theorem sort_by_day_perm_sorted (orders : List Order) :
    (sort_by_day orders).Perm orders ∧
    (sort_by_day orders).Pairwise (fun a b => a.timestamp ≤ b.timestamp) := by
  rw [sort_by_day_eq]
  refine ⟨(peerSwaps_exchange_sort (fun _ => 0) out_of_day (fun _ _ _ => rfl) orders).perm, ?_⟩
  rw [List.pairwise_iff_getElem]
  intro i j hi hj hij
  have h : out_of_day (exchange_sort out_of_day orders)[i]
      (exchange_sort out_of_day orders)[j] = false := exchange_sort_sorted out_of_day
    (fun a b c h1 h2 => by
      unfold out_of_day at *
      simp only [decide_eq_true_eq] at *
      omega)
    (fun a b h1 => by
      unfold out_of_day at *
      simp only [decide_eq_true_eq, decide_eq_false_iff_not] at *
      omega)
    orders i j _ _ hij (List.getElem?_eq_getElem hi) (List.getElem?_eq_getElem hj)
  simp only [out_of_day, decide_eq_false_iff_not] at h
  omega

/-! ## Lemmas: comparison with the stable sort of the specification -/

theorem getElem?_filter_countP_take (P : Order → Bool) (l : List Order) (p : Nat) (a : Order)
    (ha : l[p]? = some a) (hP : P a = true) :
    (l.filter P)[(l.take p).countP P]? = some a := by
  induction l generalizing p with
  | nil => simp at ha
  | cons b l ih =>
    cases p with
    | zero =>
      simp only [List.getElem?_cons_zero, Option.some.injEq] at ha
      subst ha
      simp [List.filter_cons, hP]
    | succ p =>
      simp only [List.getElem?_cons_succ] at ha
      have h := ih p ha
      by_cases hb : P b = true
      · simp [List.filter_cons, List.countP_cons, hb, h]
      · simp [List.filter_cons, List.countP_cons, hb, h]

theorem key_before_antisymm (x y : Int × Int × Float32) (h1 : key_before x y)
    (h2 : key_before y x) : x = y := by
  obtain ⟨x1, x2, x3⟩ := x
  obtain ⟨y1, y2, y3⟩ := y
  unfold key_before at h1 h2
  simp only at h1 h2
  have e1 : x1 = y1 := h1.1
  have e2 : x2 = y2 := by omega
  have e3 : x3 = y3 := float_rank_injective x3 y3 (by omega) (by omega)
  rw [e1, e2, e3]

theorem exchange_sort_timestamps (models : List ModelInfo) (orders : List Order) :
    (exchange_sort (out_of_priority models) orders).map (fun o => o.timestamp)
      = orders.map (fun o => o.timestamp) := by
  have hps := peerSwaps_exchange_sort (fun o => o.timestamp) (out_of_priority models)
    (out_of_priority_timestamp models) orders
  apply List.ext_getElem?
  intro p
  rw [List.getElem?_map, List.getElem?_map]
  exact hps.key_eq p

theorem countP_timestamp_eq (l r : List Order) (t : Int) (p : Nat)
    (h : r.map (fun o => o.timestamp) = l.map (fun o => o.timestamp)) :
    (r.take p).countP (fun o => decide (o.timestamp = t))
      = (l.take p).countP (fun o => decide (o.timestamp = t)) := by
  have e : ∀ x : List Order, x.countP (fun o => decide (o.timestamp = t))
      = (x.map (fun o => o.timestamp)).countP (fun u => decide (u = t)) := by
    intro x; rw [List.countP_map]; rfl
  rw [e, e, List.map_take, List.map_take, h]

theorem peer_keys_eq (models : List ModelInfo) (orders : List Order) (t : Int)
    (hnan : ∀ o ∈ orders, margin models o ≠ .nan) :
    ((exchange_sort (out_of_priority models) orders).filter
        (fun o => decide (o.timestamp = t))).map (priority_key models)
      = (((orders.filter (fun o => decide (o.timestamp = t))).insertionSort
        (fun a b => priority_before models a b = true))).map (priority_key models) := by
  haveI : IsAntisymm (Int × Int × Float32) key_before := ⟨key_before_antisymm⟩
  haveI : IsTotal Order (fun a b => priority_before models a b = true) := ⟨by
    intro a b
    unfold priority_before
    simp only [decide_eq_true_eq]
    omega⟩
  haveI : IsTrans Order (fun a b => priority_before models a b = true) := ⟨by
    intro a b c
    unfold priority_before
    simp only [decide_eq_true_eq]
    omega⟩
  have hps := peerSwaps_exchange_sort (fun o => o.timestamp) (out_of_priority models)
    (out_of_priority_timestamp models) orders
  apply List.eq_of_perm_of_sorted (r := key_before)
  · exact ((hps.perm.filter _).trans (List.perm_insertionSort _ _).symm).map _
  · unfold List.Sorted
    rw [List.pairwise_map]
    have hsorted : (exchange_sort (out_of_priority models) orders).Pairwise
        (fun a b => out_of_priority models a b = false) := by
      rw [List.pairwise_iff_getElem]
      intro i j hi hj hij
      exact exchange_sort_sorted (out_of_priority models) (out_of_priority_trans models)
        (out_of_priority_asymm models) orders i j _ _ hij (List.getElem?_eq_getElem hi)
        (List.getElem?_eq_getElem hj)
    refine (hsorted.filter _).imp_of_mem ?_
    intro a b ha hb hab
    have hta := (List.mem_filter.mp ha).2
    have htb := (List.mem_filter.mp hb).2
    have hna := hnan a (hps.perm.mem_iff.mp (List.mem_filter.mp ha).1)
    have hnb := hnan b (hps.perm.mem_iff.mp (List.mem_filter.mp hb).1)
    simp only [decide_eq_true_eq] at hta htb
    unfold out_of_priority at hab
    simp only [decide_eq_false_iff_not] at hab
    have hrank := flt_iff_rank (margin models a) (margin models b) hna hnb
    unfold key_before priority_key
    simp only
    by_cases hf : flt (margin models a) (margin models b) = true
    · have hq : ¬ a.quantity < b.quantity := fun h => hab ⟨by omega, Or.inl h⟩
      have hne : ¬ b.quantity = a.quantity := fun h => hab ⟨by omega, Or.inr ⟨h, hf⟩⟩
      omega
    · have hr : ¬ ((float_rank (margin models a)).1 < (float_rank (margin models b)).1 ∨
          ((float_rank (margin models a)).1 = (float_rank (margin models b)).1 ∧
            (float_rank (margin models a)).2 < (float_rank (margin models b)).2)) :=
        fun h => hf (hrank.mpr h)
      have hq : ¬ a.quantity < b.quantity := fun h => hab ⟨by omega, Or.inl h⟩
      omega
  · unfold List.Sorted
    rw [List.pairwise_map]
    have hsorted := List.sorted_insertionSort (fun a b => priority_before models a b = true)
      (orders.filter (fun o => decide (o.timestamp = t)))
    refine List.Pairwise.imp_of_mem ?_ hsorted
    intro a b ha hb hab
    have hta := (List.mem_filter.mp ((List.perm_insertionSort _ _).mem_iff.mp ha)).2
    have htb := (List.mem_filter.mp ((List.perm_insertionSort _ _).mem_iff.mp hb)).2
    simp only [decide_eq_true_eq] at hta htb
    unfold priority_before at hab
    simp only [decide_eq_true_eq] at hab
    unfold key_before priority_key
    simp only
    omega

theorem length_stable_priority_sort (models : List ModelInfo) (orders : List Order) :
    (stable_priority_sort models orders).length = orders.length := by
  unfold stable_priority_sort
  simp

theorem stable_priority_sort_keys (models : List ModelInfo) (orders : List Order)
    (hnan : ∀ o ∈ orders, margin models o ≠ .nan) :
    (exchange_sort (out_of_priority models) orders).map (priority_key models)
      = (stable_priority_sort models orders).map (priority_key models) := by
  have hps := peerSwaps_exchange_sort (fun o => o.timestamp) (out_of_priority models)
    (out_of_priority_timestamp models) orders
  have hlen := hps.length_eq
  apply List.ext_getElem?
  intro p
  rw [List.getElem?_map, List.getElem?_map]
  by_cases hp : p < orders.length
  · have hp2 : p < (exchange_sort (out_of_priority models) orders).length := by omega
    have hts := hps.key_eq p
    rw [List.getElem?_eq_getElem hp2, List.getElem?_eq_getElem hp] at hts
    simp only [Option.map_some', Option.some.injEq] at hts
    have hrank := getElem?_filter_countP_take
      (fun o => decide (o.timestamp = orders[p].timestamp))
      (exchange_sort (out_of_priority models) orders) p _ (List.getElem?_eq_getElem hp2)
      (by simpa using hts)
    rw [countP_timestamp_eq orders _ _ p (exchange_sort_timestamps models orders)] at hrank
    have hkeys := congrArg
      (fun ks => ks[(orders.take p).countP
        (fun o => decide (o.timestamp = orders[p].timestamp))]?)
      (peer_keys_eq models orders orders[p].timestamp hnan)
    simp only [List.getElem?_map, hrank, Option.map_some'] at hkeys
    unfold stable_priority_sort
    rw [List.getElem?_eq_getElem hp2, List.getElem?_map, List.getElem?_range hp]
    simp only [Option.map_some']
    rw [List.getD_eq_getElem?_getD, List.getD_eq_getElem?_getD, List.getElem?_eq_getElem hp]
    simp only [Option.getD_some]
    cases hs : ((orders.filter (fun o => decide (o.timestamp = orders[p].timestamp))).insertionSort
        (fun a b => priority_before models a b = true))[(orders.take p).countP
        (fun o => decide (o.timestamp = orders[p].timestamp))]? with
    | none => rw [hs] at hkeys; cases hkeys
    | some b =>
      rw [hs] at hkeys
      simp only [Option.map_some', Option.some.injEq] at hkeys
      simp [hkeys]
  · rw [List.getElem?_eq_none (by omega), List.getElem?_eq_none
      (by rw [length_stable_priority_sort]; omega)]

/-- C3 as stated fails: of three orders with one timestamp, the first two tying
completely, `sort_by_priority` returns the two tied orders in reversed order, whereas the
stable sort of the specification keeps them in input order.  And a margin that is not a
number (a NaN price) is below and above nothing: of three orders of one timestamp and
quantity with the margins 1, NaN and 2 the code exchanges the first and the last and
leaves the second in its slot, between the margins 2 and 1, where no sort by margin
puts it. -/
theorem sort_by_priority_not_stable_counterexample :
    sort_by_priority scenario_models tied_orders
      = some [pending_order 1 'A' 2 "Z", pending_order 1 'A' 1 "Y",
          pending_order 1 'A' 1 "X"] ∧
    stable_priority_sort scenario_models tied_orders
      = [pending_order 1 'A' 2 "Z", pending_order 1 'A' 1 "X", pending_order 1 'A' 1 "Y"] ∧
    sort_by_priority scenario_models tied_orders
      ≠ some (stable_priority_sort scenario_models tied_orders) ∧
    (∀ o ∈ nan_orders, ∃ m ∈ nan_models, m.model = o.model) ∧
    nan_orders.map (margin nan_models)
      = [.finite (1 * float_one), .nan, .finite (2 * float_one)] ∧
    (sort_by_priority nan_models nan_orders).map (fun out => out.map (margin nan_models))
      = some [.finite (2 * float_one), .nan, .finite (1 * float_one)] ∧
    (stable_priority_sort nan_models nan_orders).map (margin nan_models)
      = [.nan, .finite (2 * float_one), .finite (1 * float_one)] ∧
    (sort_by_priority nan_models nan_orders).map
        (fun out => out.map (priority_key nan_models))
      ≠ some ((stable_priority_sort nan_models nan_orders).map (priority_key nan_models)) := by
  decide

/-- C3, amended: `sort_by_priority` is not stable, but for an order list whose models
are in the catalog with margins that are numbers (no NaN) its output is a permutation of
the input that shows at every index the same timestamp, quantity and margin as the
stable sort with the comparator "quantity descending, then margin descending" applied
among same-timestamp orders, the margin being the single-precision difference
`price - cost` that the code compares; the two results differ at most in the relative
order of orders that tie completely. -/
theorem sort_by_priority_stable_up_to_ties (models : List ModelInfo) (orders : List Order)
    (hcat : ∀ o ∈ orders, ∃ m ∈ models, m.model = o.model)
    (hnan : ∀ o ∈ orders, margin models o ≠ .nan) :
    ∃ out, sort_by_priority models orders = some out ∧ out.Perm orders ∧
      out.map (priority_key models)
        = (stable_priority_sort models orders).map (priority_key models) :=
  ⟨_, sort_by_priority_eq models orders hcat,
    (peerSwaps_exchange_sort (fun o => o.timestamp) (out_of_priority models)
      (out_of_priority_timestamp models) orders).perm,
    stable_priority_sort_keys models orders hnan⟩

/-- C3, witness: the three orders of which two tie completely. -/
theorem sort_by_priority_stable_up_to_ties_witness :
    (∀ o ∈ tied_orders, ∃ m ∈ scenario_models, m.model = o.model) ∧
    (∀ o ∈ tied_orders, margin scenario_models o ≠ .nan) ∧
    ∃ out, sort_by_priority scenario_models tied_orders = some out ∧
      out.Perm tied_orders ∧
      out.map (priority_key scenario_models)
        = (stable_priority_sort scenario_models tied_orders).map
            (priority_key scenario_models) :=
  ⟨by decide, by decide,
    sort_by_priority_stable_up_to_ties scenario_models tied_orders (by decide) (by decide)⟩

/-! ## Claims about the stock -/

theorem sold_item_scan_cases (model : Char) (stock : Stock) (i remaining : Nat) :
    sold_item_scan model stock i remaining = (false, stock) ∨
    (0 < remaining ∧ sold_item_scan model stock i remaining
      = (true, { stock with products_index := stock.products_index - 1 })) := by
  induction remaining generalizing i with
  | zero => exact Or.inl rfl
  | succ n ih =>
    unfold sold_item_scan
    split
    · exact Or.inr ⟨Nat.succ_pos n, rfl⟩
    · rcases ih (i + 1) with h | ⟨-, h⟩
      · exact Or.inl h
      · exact Or.inr ⟨Nat.succ_pos n, h⟩

/-- C5: on a stock whose cursor `products_index` is 0, `sold_item_from_stock` returns
false and leaves the stock unchanged; on a stock with `products_index >= 0` the cursor
is still `>= 0` after the call, being decremented by exactly one on a true result and
the stock being left unchanged on a false result. -/
theorem sold_item_from_stock_cursor (model : Char) (stock : Stock) :
    (stock.products_index = 0 → sold_item_from_stock model stock = (false, stock)) ∧
    (0 ≤ stock.products_index →
      0 ≤ (sold_item_from_stock model stock).2.products_index ∧
      ((sold_item_from_stock model stock).1 = true →
        (sold_item_from_stock model stock).2
          = { stock with products_index := stock.products_index - 1 }) ∧
      ((sold_item_from_stock model stock).1 = false →
        (sold_item_from_stock model stock).2 = stock)) := by
  unfold sold_item_from_stock
  constructor
  · intro h0
    rw [h0]
    rfl
  · intro hpos
    rcases sold_item_scan_cases model stock 0 stock.products_index.toNat with h | ⟨hrem, h⟩
    · rw [h]
      exact ⟨hpos, fun hc => Bool.noConfusion hc, fun _ => rfl⟩
    · rw [h]
      refine ⟨?_, fun _ => rfl, fun hc => Bool.noConfusion hc⟩
      simp only
      omega

/-- C5, witness: an empty stock (cursor 0), and a stock with one slot of model A below
the cursor, from which one item of model A is sold. -/
theorem sold_item_from_stock_cursor_witness :
    sold_item_from_stock 'A' empty_stock = (false, empty_stock) ∧
    (sold_item_from_stock 'A' one_slot_stock).1 = true ∧
    (sold_item_from_stock 'A' one_slot_stock).2.products_index = 0 ∧
    (sold_item_from_stock 'B' one_slot_stock).2 = one_slot_stock :=
  ⟨(sold_item_from_stock_cursor 'A' empty_stock).1 rfl,
    by decide,
    by
      have h := ((sold_item_from_stock_cursor 'A' one_slot_stock).2 (by decide)).2.1
        (by decide)
      rw [h]
      rfl,
    ((sold_item_from_stock_cursor 'B' one_slot_stock).2 (by decide)).2.2 (by decide)⟩

/-- C6 fails on the code: the guard of `prepare_product_for_model` compares the whole
`storage_capacity` with `space_required` and never looks at `occupied_space`.  With capacity
10 and 8 occupied, building one unit of model C (space 3) leaves 11 occupied; and a whole
`prepare_for_stock` call from the empty stock with capacity 10, all demand on model D
(space 9, average size 3), ends with 27 occupied. -/
theorem prepare_product_for_model_overfills :
    nearly_full_stock.occupied_space ≤ small_system.storage_capacity ∧
    (prepare_product_for_model 'C' scenario_models nearly_full_stock small_system 1 0).map
      (fun r => r.1.occupied_space) = some 11 ∧
    empty_stock.occupied_space ≤ small_system.storage_capacity ∧
    (prepare_for_stock exact_share_units all_d_stats small_system empty_stock
      scenario_models).map (fun r => r.occupied_space) = some 27 ∧
    ¬ ((11 : Int) ≤ small_system.storage_capacity) ∧
    ¬ ((27 : Int) ≤ small_system.storage_capacity) := by
  decide

/-! ## Lemmas: one step of the scheduler -/

theorem process_order_cases (share_units : Int → Int → Int → Int) (models : List ModelInfo)
    (i : Nat) (s s2 : SimState) (h : process_order share_units models i s = some s2) :
    ∃ o, s.orders[i]? = some o ∧ s2.hour_count = s.hour_count ∧
      s2.stock_prepared_for_free_days = s.stock_prepared_for_free_days ∧
      s2.stats = update_ordering_stats o.model s.stats ∧
      ((s2.orders = s.orders ∧ s2.system = s.system ∧
          s2.processed_orders = s.processed_orders) ∨
        (∃ mi, get_model_by_name o.model models = some mi ∧ o.processing ≠ 0 ∧
          o.process_end_hour = s.hour_count ∧
          s2.orders = s.orders.set i { o with completed := 1, processing := 0 } ∧
          s2.system = { s.system with
            number_of_workers := s.system.number_of_workers + mi.man_hours } ∧
          s2.processed_orders = s.processed_orders + 1) ∨
        (∃ mi, get_model_by_name o.model models = some mi ∧ o.processing = 0 ∧
          o.completed = 0 ∧ mi.man_hours ≤ s.system.number_of_workers ∧
          s2.orders = s.orders.set i
            { o with
              process_start_hour := s.hour_count,
              process_end_hour := s.hour_count + mi.man_hours,
              processing := 1 } ∧
          s2.system = { s.system with
            number_of_workers := s.system.number_of_workers - mi.man_hours } ∧
          s2.processed_orders = s.processed_orders)) := by
  unfold process_order at h
  split at h
  · cases h
  · rename_i o ho
    refine ⟨o, ho, ?_⟩
    dsimp only at h
    split at h
    · cases h
    · rename_i stock1 hprep
      split at h
      · cases h
        exact ⟨rfl, rfl, rfl, Or.inl ⟨rfl, rfl, rfl⟩⟩
      · split at h
        · rename_i hproc
          split at h
          · rename_i hend
            split at h
            · cases h
            · rename_i mi hmi
              cases h
              exact ⟨rfl, rfl, rfl, Or.inr (Or.inl ⟨mi, hmi, hproc, hend, rfl, rfl, rfl⟩)⟩
          · cases h
            exact ⟨rfl, rfl, rfl, Or.inl ⟨rfl, rfl, rfl⟩⟩
        · rename_i hproc
          split at h
          · rename_i hcomp
            split at h
            · cases h
            · rename_i mi hmi
              split at h
              · rename_i hw
                cases h
                exact ⟨rfl, rfl, rfl, Or.inr (Or.inr
                  ⟨mi, hmi, not_not.mp hproc, hcomp, hw, rfl, rfl, rfl⟩)⟩
              · cases h
                exact ⟨rfl, rfl, rfl, Or.inl ⟨rfl, rfl, rfl⟩⟩
          · cases h
            exact ⟨rfl, rfl, rfl, Or.inl ⟨rfl, rfl, rfl⟩⟩

/-! ## Lemmas: properties kept by every step of a run -/

theorem scan_orders_invariant (share_units : Int → Int → Int → Int)
    (models : List ModelInfo) (P : SimState → Prop)
    (hstep : ∀ i s s2, P s → process_order share_units models i s = some s2 → P s2)
    (k : Nat) (s s2 : SimState) (hs : P s)
    (h : scan_orders share_units models k s = some s2) : P s2 := by
  induction k generalizing s2 with
  | zero =>
    unfold scan_orders at h
    cases h
    exact hs
  | succ k ih =>
    unfold scan_orders at h
    obtain ⟨s1, h1, h2⟩ := Option.bind_eq_some.mp h
    exact hstep k s1 s2 (ih s1 h1) h2

theorem hour_pass_invariant (share_units : Int → Int → Int → Int)
    (models : List ModelInfo) (P : SimState → Prop)
    (hstep : ∀ i s s2, P s → process_order share_units models i s = some s2 → P s2)
    (hend : ∀ s, P s →
      P { s with stock_prepared_for_free_days := true, hour_count := s.hour_count + 1 })
    (s s2 : SimState) (hs : P s) (h : hour_pass share_units models s = some s2) : P s2 := by
  unfold hour_pass at h
  obtain ⟨s1, h1, h2⟩ := Option.map_eq_some'.mp h
  subst h2
  exact hend s1 (scan_orders_invariant share_units models P hstep _ s s1 hs h1)

theorem after_hours_invariant (share_units : Int → Int → Int → Int)
    (models : List ModelInfo) (P : SimState → Prop)
    (hstep : ∀ i s s2, P s → process_order share_units models i s = some s2 → P s2)
    (hend : ∀ s, P s →
      P { s with stock_prepared_for_free_days := true, hour_count := s.hour_count + 1 })
    (n : Nat) (s s2 : SimState) (hs : P s)
    (h : after_hours share_units models n s = some s2) : P s2 := by
  induction n generalizing s2 with
  | zero =>
    unfold after_hours at h
    cases h
    exact hs
  | succ n ih =>
    unfold after_hours at h
    obtain ⟨s1, h1, h2⟩ := Option.bind_eq_some.mp h
    split at h2
    · exact hour_pass_invariant share_units models P hstep hend s1 s2 (ih s1 h1) h2
    · cases h2

theorem run_point_invariant (share_units : Int → Int → Int → Int)
    (models : List ModelInfo) (P : SimState → Prop)
    (hstep : ∀ i s s2, P s → process_order share_units models i s = some s2 → P s2)
    (hend : ∀ s, P s →
      P { s with stock_prepared_for_free_days := true, hour_count := s.hour_count + 1 })
    (n k : Nat) (s s2 : SimState) (hs : P s)
    (h : run_point share_units models n k s = some s2) : P s2 := by
  unfold run_point at h
  obtain ⟨s1, h1, h2⟩ := Option.bind_eq_some.mp h
  split at h2
  · exact scan_orders_invariant share_units models P hstep k s1 s2
      (after_hours_invariant share_units models P hstep hend n s s1 hs h1) h2
  · cases h2

theorem process_hours_invariant (share_units : Int → Int → Int → Int)
    (models : List ModelInfo) (P : SimState → Prop)
    (hstep : ∀ i s s2, P s → process_order share_units models i s = some s2 → P s2)
    (hend : ∀ s, P s →
      P { s with stock_prepared_for_free_days := true, hour_count := s.hour_count + 1 })
    (fuel : Nat) (s s2 : SimState) (hs : P s)
    (h : process_hours share_units models fuel s = some s2) : P s2 := by
  induction fuel generalizing s with
  | zero =>
    unfold process_hours at h
    split at h
    · cases h
    · cases h
      exact hs
  | succ fuel ih =>
    unfold process_hours at h
    split at h
    · obtain ⟨s1, h1, h2⟩ := Option.bind_eq_some.mp h
      exact ih s1 (hour_pass_invariant share_units models P hstep hend s s1 hs h1) h2
    · cases h
      exact hs

theorem hours_agree_step (share_units : Int → Int → Int → Int) (models : List ModelInfo)
    (i : Nat) (s s2 : SimState)
    (hs : ∀ o ∈ s.orders, (o.processing ≠ 0 ∨ o.completed ≠ 0) →
      ∃ mi, get_model_by_name o.model models = some mi ∧
        o.process_end_hour - o.process_start_hour = mi.man_hours)
    (h : process_order share_units models i s = some s2) :
    ∀ o ∈ s2.orders, (o.processing ≠ 0 ∨ o.completed ≠ 0) →
      ∃ mi, get_model_by_name o.model models = some mi ∧
        o.process_end_hour - o.process_start_hour = mi.man_hours := by
  obtain ⟨o, ho, -, -, -, hcase⟩ := process_order_cases share_units models i s s2 h
  have hmem : o ∈ s.orders := List.getElem?_mem ho
  rcases hcase with ⟨horders, -, -⟩ | ⟨mi, hmi, hproc, -, horders, -, -⟩ |
    ⟨mi, hmi, -, -, -, horders, -, -⟩
  · rw [horders]; exact hs
  · rw [horders]
    intro x hx hx2
    rcases List.mem_or_eq_of_mem_set hx with hx3 | rfl
    · exact hs x hx3 hx2
    · exact hs o hmem (Or.inl hproc)
  · rw [horders]
    intro x hx hx2
    rcases List.mem_or_eq_of_mem_set hx with hx3 | rfl
    · exact hs x hx3 hx2
    · exact ⟨mi, hmi, by simp⟩

theorem sum_map_set (f : Order → Int) (l : List Order) (i : Nat) (o x : Order)
    (h : l[i]? = some o) : ((l.set i x).map f).sum = (l.map f).sum - f o + f x := by
  induction l generalizing i with
  | nil => simp at h
  | cons a l ih =>
    cases i with
    | zero =>
      simp only [List.getElem?_cons_zero, Option.some.injEq] at h
      subst h
      simp only [List.set_cons_zero, List.map_cons, List.sum_cons]
      omega
    | succ i =>
      simp only [List.getElem?_cons_succ] at h
      simp only [List.set_cons_succ, List.map_cons, List.sum_cons, ih i h]
      omega

theorem sum_map_eq_zero (f : Order → Int) (l : List Order) (h : ∀ o ∈ l, f o = 0) :
    (l.map f).sum = 0 := by
  induction l with
  | nil => rfl
  | cons a l ih =>
    simp only [List.map_cons, List.sum_cons, h a (List.mem_cons_self _ _),
      ih (fun o ho => h o (List.mem_cons_of_mem _ ho))]
    rfl

theorem workers_step (share_units : Int → Int → Int → Int) (models : List ModelInfo)
    (W : Int) (i : Nat) (s s2 : SimState)
    (hs : s.system.number_of_workers = W - busy_hours models s.orders ∧
      ∀ o ∈ s.orders, o.processing ≠ 0 → o.completed = 0)
    (h : process_order share_units models i s = some s2) :
    s2.system.number_of_workers = W - busy_hours models s2.orders ∧
      ∀ o ∈ s2.orders, o.processing ≠ 0 → o.completed = 0 := by
  obtain ⟨o, ho, -, -, -, hcase⟩ := process_order_cases share_units models i s s2 h
  rcases hcase with ⟨horders, hsys, -⟩ | ⟨mi, hmi, hproc, -, horders, hsys, -⟩ |
    ⟨mi, hmi, hproc, hcomp, -, horders, hsys, -⟩
  · rw [horders, hsys]; exact hs
  · rw [horders, hsys]
    constructor
    · have h1 := hs.1
      unfold busy_hours at h1 ⊢
      rw [sum_map_set _ _ i o _ ho]
      have hfo : (if o.processing ≠ 0 then order_man_hours models o else 0)
          = mi.man_hours := by
        rw [if_pos hproc]
        unfold order_man_hours
        rw [hmi]
      simp only [ne_eq] at h1 hfo
      simp only [hfo, ne_eq, not_true_eq_false, if_false]
      omega
    · intro x hx hx2
      rcases List.mem_or_eq_of_mem_set hx with hx3 | rfl
      · exact hs.2 x hx3 hx2
      · exact absurd rfl hx2
  · rw [horders, hsys]
    constructor
    · have h1 := hs.1
      unfold busy_hours at h1 ⊢
      rw [sum_map_set _ _ i o _ ho]
      have hfo : (if o.processing ≠ 0 then order_man_hours models o else 0) = 0 := by
        rw [if_neg (not_not.mpr hproc)]
      have hfx : order_man_hours models
          { o with
            process_start_hour := s.hour_count,
            process_end_hour := s.hour_count + mi.man_hours,
            processing := 1 } = mi.man_hours := by
        unfold order_man_hours
        simp only [hmi]
      simp only [ne_eq] at h1 hfo
      simp only [hfo, hfx, ne_eq, one_ne_zero, not_false_eq_true, if_true]
      omega
    · intro x hx hx2
      rcases List.mem_or_eq_of_mem_set hx with hx3 | rfl
      · exact hs.2 x hx3 hx2
      · exact hcomp

/-! ## Claims about the scheduler -/

/-- C7: starting `process_orders` with every order Pending, at every point of the run
(after any number of complete hour passes and any number of orders of the next pass)
every order that is Processing or Completed satisfies
`process_end_hour - process_start_hour = man_hours` of its model; in particular every
Completed order does when the run ends. -/
theorem process_orders_hours_agree (share_units : Int → Int → Int → Int)
    (models : List ModelInfo) (orders : List Order) (stats : ModelOrderingStats)
    (system : SystemInfo) (stock : Stock)
    (hpending : ∀ o ∈ orders, o.processing = 0 ∧ o.completed = 0) :
    (∀ (n k : ℕ) (s : SimState),
      run_point share_units models n k (initial_state orders stats system stock) = some s →
      ∀ o ∈ s.orders, (o.processing ≠ 0 ∨ o.completed ≠ 0) →
        ∃ mi, get_model_by_name o.model models = some mi ∧
          o.process_end_hour - o.process_start_hour = mi.man_hours) ∧
    (∀ (fuel : ℕ) (s : SimState),
      process_orders share_units models fuel orders stats system stock = some s →
      ∀ o ∈ s.orders, (o.processing ≠ 0 ∨ o.completed ≠ 0) →
        ∃ mi, get_model_by_name o.model models = some mi ∧
          o.process_end_hour - o.process_start_hour = mi.man_hours) := by
  have h0 : ∀ o ∈ (initial_state orders stats system stock).orders,
      (o.processing ≠ 0 ∨ o.completed ≠ 0) →
        ∃ mi, get_model_by_name o.model models = some mi ∧
          o.process_end_hour - o.process_start_hour = mi.man_hours := by
    intro o ho hne
    have := hpending o ho
    rcases hne with h1 | h1
    · exact absurd this.1 h1
    · exact absurd this.2 h1
  constructor
  · intro n k s hrun
    exact run_point_invariant share_units models _
      (fun i s s2 hs h => hours_agree_step share_units models i s s2 hs h)
      (fun s hs => hs) n k _ s h0 hrun
  · intro fuel s hrun
    exact process_hours_invariant share_units models _
      (fun i s s2 hs h => hours_agree_step share_units models i s s2 hs h)
      (fun s hs => hs) fuel _ s h0 hrun

/-- C7, witness: the one-order scenario (model A, man-hours 2); the order is Processing
with hours 1 and 3 after the first pass and Completed with the same hours at the end. -/
theorem process_orders_hours_agree_witness :
    (∀ o ∈ [scenario_order], o.processing = 0 ∧ o.completed = 0) ∧
    (run_point exact_share_units scenario_models 1 0
        (initial_state [scenario_order] scenario_stats scenario_system empty_stock)).map
      (fun s => s.orders)
      = some [{ scenario_order with
          process_start_hour := 1, process_end_hour := 3, processing := 1 }] ∧
    (process_orders exact_share_units scenario_models 3 [scenario_order] scenario_stats
        scenario_system empty_stock).map (fun s => s.orders)
      = some [{ scenario_order with
          process_start_hour := 1, process_end_hour := 3, completed := 1 }] ∧
    (∀ (n k : ℕ) (s : SimState),
      run_point exact_share_units scenario_models n k
        (initial_state [scenario_order] scenario_stats scenario_system empty_stock) = some s →
      ∀ o ∈ s.orders, (o.processing ≠ 0 ∨ o.completed ≠ 0) →
        ∃ mi, get_model_by_name o.model scenario_models = some mi ∧
          o.process_end_hour - o.process_start_hour = mi.man_hours) :=
  ⟨by decide, by decide, by decide,
    (process_orders_hours_agree exact_share_units scenario_models [scenario_order]
      scenario_stats scenario_system empty_stock (by decide)).1⟩

/-- C8: starting `process_orders` with every order Pending and `W` worker-hours, at
every point of the run `number_of_workers` equals `W` minus the sum of the man-hours of
the orders currently Processing; hence when the run ends with all orders Completed the
pool is exactly `W` again. -/
theorem process_orders_worker_pool (share_units : Int → Int → Int → Int)
    (models : List ModelInfo) (orders : List Order) (stats : ModelOrderingStats)
    (system : SystemInfo) (stock : Stock)
    (hpending : ∀ o ∈ orders, o.processing = 0 ∧ o.completed = 0) :
    (∀ (n k : ℕ) (s : SimState),
      run_point share_units models n k (initial_state orders stats system stock) = some s →
      s.system.number_of_workers
        = system.number_of_workers - busy_hours models s.orders) ∧
    (∀ (fuel : ℕ) (s : SimState),
      process_orders share_units models fuel orders stats system stock = some s →
      s.system.number_of_workers
          = system.number_of_workers - busy_hours models s.orders ∧
        ((∀ o ∈ s.orders, o.completed ≠ 0) →
          s.system.number_of_workers = system.number_of_workers)) := by
  have h0 : (initial_state orders stats system stock).system.number_of_workers
        = system.number_of_workers
          - busy_hours models (initial_state orders stats system stock).orders ∧
      ∀ o ∈ (initial_state orders stats system stock).orders,
        o.processing ≠ 0 → o.completed = 0 := by
    constructor
    · unfold busy_hours initial_state
      rw [sum_map_eq_zero]
      · simp
      · intro o ho
        rw [if_neg (not_not.mpr (hpending o ho).1)]
    · intro o ho hne
      exact absurd (hpending o ho).1 hne
  constructor
  · intro n k s hrun
    exact (run_point_invariant share_units models _
      (fun i s s2 hs h => workers_step share_units models system.number_of_workers i s s2 hs h)
      (fun s hs => hs) n k _ s h0 hrun).1
  · intro fuel s hrun
    have h := process_hours_invariant share_units models _
      (fun i s s2 hs h => workers_step share_units models system.number_of_workers i s s2 hs h)
      (fun s hs => hs) fuel _ s h0 hrun
    refine ⟨h.1, fun hall => ?_⟩
    rw [h.1]
    unfold busy_hours
    rw [sum_map_eq_zero]
    · simp
    · intro o ho
      by_cases hp : o.processing ≠ 0
      · exact absurd (h.2 o ho hp) (hall o ho)
      · rw [if_neg hp]

/-- C8, witness: the one-order scenario with 10 workers; 8 are free while the order is
Processing and 10 when the run has ended. -/
theorem process_orders_worker_pool_witness :
    (∀ o ∈ [scenario_order], o.processing = 0 ∧ o.completed = 0) ∧
    (run_point exact_share_units scenario_models 1 0
        (initial_state [scenario_order] scenario_stats scenario_system empty_stock)).map
      (fun s => (s.system.number_of_workers, busy_hours scenario_models s.orders))
      = some (8, 2) ∧
    (process_orders exact_share_units scenario_models 3 [scenario_order] scenario_stats
        scenario_system empty_stock).map (fun s => s.system.number_of_workers) = some 10 ∧
    (∀ (fuel : ℕ) (s : SimState),
      process_orders exact_share_units scenario_models fuel [scenario_order] scenario_stats
        scenario_system empty_stock = some s →
      s.system.number_of_workers
          = scenario_system.number_of_workers - busy_hours scenario_models s.orders ∧
        ((∀ o ∈ s.orders, o.completed ≠ 0) →
          s.system.number_of_workers = scenario_system.number_of_workers)) :=
  ⟨by decide, by decide, by decide,
    (process_orders_worker_pool exact_share_units scenario_models [scenario_order]
      scenario_stats scenario_system empty_stock (by decide)).2⟩

/-! ## Lemmas: the run of a single order -/

theorem sold_item_from_stock_empty (model : Char) (stock : Stock)
    (h : stock.products_index = 0) : sold_item_from_stock model stock = (false, stock) := by
  unfold sold_item_from_stock
  rw [h]
  rfl

theorem single_order_step (share_units : Int → Int → Int → Int) (models : List ModelInfo)
    (s : SimState) (x : Order) (hs : s.orders = [x]) (hstock : s.stock.products_index = 0) :
    process_order share_units models 0 s =
      if x.processing ≠ 0 then
        if x.process_end_hour = s.hour_count then
          match get_model_by_name x.model models with
          | none => none
          | some mi =>
            some { s with
              stats := update_ordering_stats x.model s.stats,
              orders := [{ x with completed := 1, processing := 0 }],
              system := { s.system with
                number_of_workers := s.system.number_of_workers + mi.man_hours },
              processed_orders := s.processed_orders + 1 }
        else some { s with stats := update_ordering_stats x.model s.stats }
      else if x.completed = 0 then
        match get_model_by_name x.model models with
        | none => none
        | some mi =>
          if mi.man_hours ≤ s.system.number_of_workers then
            some { s with
              stats := update_ordering_stats x.model s.stats,
              orders := [{ x with
                  process_start_hour := s.hour_count,
                  process_end_hour := s.hour_count + mi.man_hours,
                  processing := 1 }],
              system := { s.system with
                number_of_workers := s.system.number_of_workers - mi.man_hours } }
          else some { s with stats := update_ordering_stats x.model s.stats }
      else some { s with stats := update_ordering_stats x.model s.stats } := by
  unfold process_order
  rw [hs]
  have h01 : ¬ ((0 : Int) > 1) := by decide
  simp only [List.getElem?_cons_zero, if_true, sub_self, h01, and_false, if_false,
    sold_item_from_stock_empty _ _ hstock, List.set_cons_zero, Bool.false_eq_true]

theorem update_ordering_stats_total (m : Char) (st : ModelOrderingStats) :
    (update_ordering_stats m st).total_orders = st.total_orders := by
  unfold update_ordering_stats
  split_ifs <;> rfl

theorem hour_pass_single (share_units : Int → Int → Int → Int) (models : List ModelInfo)
    (s : SimState) (htotal : s.stats.total_orders = 1) :
    hour_pass share_units models s = (process_order share_units models 0 s).map fun s1 =>
      { s1 with stock_prepared_for_free_days := true, hour_count := s1.hour_count + 1 } := by
  unfold hour_pass
  rw [htotal]
  rfl

theorem single_first_pass (share_units : Int → Int → Int → Int) (models : List ModelInfo)
    (o : Order) (mi : ModelInfo) (stats : ModelOrderingStats) (system : SystemInfo)
    (stock : Stock) (hmodel : get_model_by_name o.model models = some mi)
    (hproc : o.processing = 0) (hcomp : o.completed = 0)
    (hW : mi.man_hours ≤ system.number_of_workers) (hstock : stock.products_index = 0)
    (htotal : stats.total_orders = 1) :
    ∃ s1, hour_pass share_units models (initial_state [o] stats system stock) = some s1 ∧
      SingleProcessing mi system.number_of_workers o 2 s1 := by
  rw [hour_pass_single _ _ _ htotal,
    single_order_step share_units models _ o rfl hstock]
  simp only [hproc, hcomp, hmodel, initial_state, ne_eq, not_true_eq_false, if_false, if_true,
    hW, Option.map_some']
  refine ⟨_, rfl, ?_⟩
  refine ⟨?_, rfl, hstock, rfl, rfl, ?_⟩
  · simp only [started_order, hcomp]
  · simp only [update_ordering_stats_total, htotal]

theorem single_idle_pass (share_units : Int → Int → Int → Int) (models : List ModelInfo)
    (o : Order) (mi : ModelInfo) (W hour : Int) (s : SimState)
    (hs : SingleProcessing mi W o hour s) (hhour : hour ≠ 1 + mi.man_hours) :
    ∃ s1, hour_pass share_units models s = some s1 ∧
      SingleProcessing mi W o (hour + 1) s1 := by
  obtain ⟨h1, h2, h3, h4, h5, h6⟩ := hs
  rw [hour_pass_single _ _ _ h6, single_order_step share_units models s _ h1 h3]
  have hne : ¬ (1 + mi.man_hours = s.hour_count) := by rw [h5]; exact fun h => hhour h.symm
  simp only [started_order, ne_eq, one_ne_zero, not_false_eq_true, if_true, hne, if_false,
    Option.map_some']
  refine ⟨_, rfl, ?_⟩
  refine ⟨h1, h2, h3, h4, by simp only [h5], ?_⟩
  simp only [update_ordering_stats_total, h6]

theorem single_last_step (share_units : Int → Int → Int → Int) (models : List ModelInfo)
    (o : Order) (mi : ModelInfo) (W : Int) (s : SimState)
    (hmodel : get_model_by_name o.model models = some mi)
    (hs : SingleProcessing mi W o (1 + mi.man_hours) s) :
    ∃ s1, process_order share_units models 0 s = some s1 ∧
      s1.orders = [completed_order mi o] ∧ s1.system.number_of_workers = W ∧
      s1.processed_orders = 1 ∧ s1.hour_count = 1 + mi.man_hours ∧
      s1.stats.total_orders = 1 := by
  obtain ⟨h1, h2, h3, h4, h5, h6⟩ := hs
  rw [single_order_step share_units models s _ h1 h3]
  simp only [started_order, ne_eq, one_ne_zero, not_false_eq_true, if_true, h5, hmodel]
  refine ⟨_, rfl, rfl, ?_, ?_, rfl, ?_⟩
  · simp only [h2]; omega
  · simp only [h4]; rfl
  · simp only [update_ordering_stats_total, h6]

theorem single_after_hours (share_units : Int → Int → Int → Int) (models : List ModelInfo)
    (o : Order) (mi : ModelInfo) (stats : ModelOrderingStats) (system : SystemInfo)
    (stock : Stock) (hmodel : get_model_by_name o.model models = some mi)
    (hproc : o.processing = 0) (hcomp : o.completed = 0)
    (hW : mi.man_hours ≤ system.number_of_workers) (hstock : stock.products_index = 0)
    (htotal : stats.total_orders = 1) (n : Nat) (hn : (n : Int) + 1 ≤ mi.man_hours) :
    ∃ s1, after_hours share_units models (n + 1) (initial_state [o] stats system stock)
        = some s1 ∧
      SingleProcessing mi system.number_of_workers o (n + 2) s1 := by
  induction n with
  | zero =>
    obtain ⟨s1, h1, h2⟩ := single_first_pass share_units models o mi stats system stock
      hmodel hproc hcomp hW hstock htotal
    refine ⟨s1, ?_, by simpa using h2⟩
    unfold after_hours after_hours
    simp only [Option.some_bind, initial_state, htotal]
    rw [if_pos (by decide)]
    exact h1
  | succ n ih =>
    obtain ⟨s1, h1, h2⟩ := ih (by omega)
    obtain ⟨s2, h3, h4⟩ := single_idle_pass share_units models o mi _ _ s1 h2
      (by omega)
    refine ⟨s2, ?_, ?_⟩
    · unfold after_hours
      rw [h1]
      simp only [Option.some_bind, h2.2.2.2.1, h2.2.2.2.2.2]
      rw [if_pos (by decide)]
      exact h3
    · have e : ((n + 1 : ℕ) : Int) + 2 = (n : Int) + 2 + 1 := by push_cast; ring
      rw [e]
      exact h4

theorem process_hours_after_hours (share_units : Int → Int → Int → Int)
    (models : List ModelInfo) (n fuel : Nat) (s s1 : SimState)
    (h : after_hours share_units models n s = some s1) :
    process_hours share_units models (n + fuel) s = process_hours share_units models fuel s1 := by
  induction n generalizing fuel s1 with
  | zero =>
    unfold after_hours at h
    cases h
    rw [Nat.zero_add]
  | succ n ih =>
    unfold after_hours at h
    obtain ⟨s0, h1, h2⟩ := Option.bind_eq_some.mp h
    split at h2
    · rename_i hcond
      rw [show n + 1 + fuel = n + (fuel + 1) by omega, ih (fuel + 1) s0 h1]
      conv => lhs; unfold process_hours
      rw [if_pos hcond, h2]
      rfl
    · cases h2

theorem process_hours_done (share_units : Int → Int → Int → Int) (models : List ModelInfo)
    (fuel : Nat) (s : SimState) (h : ¬ s.processed_orders < s.stats.total_orders) :
    process_hours share_units models fuel s = some s := by
  cases fuel with
  | zero => unfold process_hours; rw [if_neg h]
  | succ n => unfold process_hours; rw [if_neg h]

/-- C9: for a single Pending order whose model needs `m` man-hours with `1 <= m <= W`
and an empty stock, `process_orders` (given at least `m + 1` hour passes of fuel) returns;
at the start of the hour pass numbered `1 + m` the order is Processing with
`process_start_hour = 1` and `process_end_hour = 1 + m`, during that pass it is marked
Completed, and the run finishes with `number_of_workers = W`. -/
theorem process_orders_single_order (share_units : Int → Int → Int → Int)
    (models : List ModelInfo) (o : Order) (mi : ModelInfo) (stats : ModelOrderingStats)
    (system : SystemInfo) (stock : Stock)
    (hmodel : get_model_by_name o.model models = some mi)
    (hproc : o.processing = 0) (hcomp : o.completed = 0)
    (hm : 1 ≤ mi.man_hours) (hW : mi.man_hours ≤ system.number_of_workers)
    (hstock : stock.products_index = 0) (htotal : stats.total_orders = 1)
    (fuel : Nat) (hfuel : mi.man_hours.toNat + 1 ≤ fuel) :
    (∃ s1, run_point share_units models mi.man_hours.toNat 0
          (initial_state [o] stats system stock) = some s1 ∧
        s1.hour_count = 1 + mi.man_hours ∧
        s1.orders = [{ o with
          process_start_hour := 1, process_end_hour := 1 + mi.man_hours,
          processing := 1 }]) ∧
    (∃ s2, run_point share_units models mi.man_hours.toNat 1
          (initial_state [o] stats system stock) = some s2 ∧
        s2.hour_count = 1 + mi.man_hours ∧
        s2.orders = [{ o with
          process_start_hour := 1, process_end_hour := 1 + mi.man_hours,
          completed := 1, processing := 0 }]) ∧
    (∃ s, process_orders share_units models fuel [o] stats system stock = some s ∧
        s.orders = [{ o with
          process_start_hour := 1, process_end_hour := 1 + mi.man_hours,
          completed := 1, processing := 0 }] ∧
        s.system.number_of_workers = system.number_of_workers ∧
        s.processed_orders = 1 ∧ s.hour_count = 2 + mi.man_hours) := by
  obtain ⟨n, hn⟩ : ∃ n : ℕ, mi.man_hours.toNat = n + 1 :=
    ⟨mi.man_hours.toNat - 1, by omega⟩
  have hcast : (n : Int) + 1 = mi.man_hours := by omega
  obtain ⟨s1, h1, h2⟩ := single_after_hours share_units models o mi stats system stock
    hmodel hproc hcomp hW hstock htotal n (by omega)
  have h2b : SingleProcessing mi system.number_of_workers o (1 + mi.man_hours) s1 := by
    have e : (n : Int) + 2 = 1 + mi.man_hours := by omega
    rw [← e]; exact h2
  obtain ⟨s2, h3, h4, h5, h6, h7, h8⟩ :=
    single_last_step share_units models o mi _ s1 hmodel h2b
  have hcond : s1.processed_orders < s1.stats.total_orders := by
    rw [h2b.2.2.2.1, h2b.2.2.2.2.2]; decide
  rw [hn]
  refine ⟨⟨s1, ?_, h2b.2.2.2.2.1, h2b.1⟩, ⟨s2, ?_, h7, h4⟩, ?_⟩
  · unfold run_point
    rw [h1]
    simp only [Option.some_bind, if_pos hcond]
    rfl
  · unfold run_point
    rw [h1]
    simp only [Option.some_bind, if_pos hcond]
    unfold scan_orders scan_orders
    exact h3
  · obtain ⟨f, hf⟩ : ∃ f : ℕ, fuel = (n + 1) + (f + 1) := ⟨fuel - (n + 2), by omega⟩
    refine ⟨{ s2 with stock_prepared_for_free_days := true, hour_count := s2.hour_count + 1 },
      ?_, h4, h5, h6, ?_⟩
    · unfold process_orders
      rw [hf, process_hours_after_hours share_units models (n + 1) (f + 1) _ s1 h1]
      conv => lhs; unfold process_hours
      rw [if_pos hcond, hour_pass_single _ _ _ h2b.2.2.2.2.2, h3]
      simp only [Option.map_some', Option.some_bind]
      apply process_hours_done
      simp only [h6, h8]
      decide
    · simp only [h7]
      omega

/-- C9, witness: model A with man-hours 2, one order (timestamp 1, A, quantity 5, X),
10 workers, storage 100: the order starts at hour 1, completes at hour 3, and the pool is
back to 10. -/
theorem process_orders_single_order_witness :
    get_model_by_name scenario_order.model scenario_models = some scenario_model_a ∧
    (1 ≤ scenario_model_a.man_hours ∧
      scenario_model_a.man_hours ≤ scenario_system.number_of_workers) ∧
    (process_orders exact_share_units scenario_models 3 [scenario_order] scenario_stats
        scenario_system empty_stock).map
      (fun s => (s.orders, s.system.number_of_workers, s.hour_count))
      = some ([{ scenario_order with
          process_start_hour := 1, process_end_hour := 3, completed := 1 }], 10, 4) ∧
    ∃ s, process_orders exact_share_units scenario_models 3 [scenario_order] scenario_stats
          scenario_system empty_stock = some s ∧
        s.orders = [{ scenario_order with
          process_start_hour := 1, process_end_hour := 1 + scenario_model_a.man_hours,
          completed := 1, processing := 0 }] ∧
        s.system.number_of_workers = scenario_system.number_of_workers ∧
        s.processed_orders = 1 ∧ s.hour_count = 2 + scenario_model_a.man_hours :=
  ⟨by decide, by decide, by decide,
    (process_orders_single_order exact_share_units scenario_models scenario_order
      scenario_model_a scenario_stats scenario_system empty_stock (by decide) (by decide)
      (by decide) (by decide) (by decide) (by decide) (by decide) 3 (by decide)).2.2⟩

/-! ## Lemmas: the per-customer summary -/

theorem find_customer_row_none (name : String) (stats : Nat → ItemSoldStats)
    (i remaining : Nat) (h : find_customer_row name stats i remaining = none) :
    ∀ r, i ≤ r → r < i + remaining → (stats r).name ≠ name := by
  induction remaining generalizing i with
  | zero => intro r h1 h2; omega
  | succ n ih =>
    unfold find_customer_row at h
    split at h
    · cases h
    · rename_i hne
      intro r h1 h2
      by_cases hr : r = i
      · rw [hr]; exact hne
      · exact ih (i + 1) h r (by omega) (by omega)

theorem find_customer_row_some (name : String) (stats : Nat → ItemSoldStats)
    (i remaining row : Nat) (h : find_customer_row name stats i remaining = some row) :
    i ≤ row ∧ row < i + remaining ∧ (stats row).name = name := by
  induction remaining generalizing i with
  | zero => unfold find_customer_row at h; cases h
  | succ n ih =>
    unfold find_customer_row at h
    split at h
    · rename_i heq
      cases h
      exact ⟨le_refl _, by omega, heq⟩
    · obtain ⟨h1, h2, h3⟩ := ih (i + 1) h
      exact ⟨by omega, by omega, h3⟩

theorem count_model_name (m : Char) (stat : ItemSoldStats) :
    (count_model m stat).name = stat.name := by
  unfold count_model
  split_ifs <;> rfl

theorem sold_count_count_model (m k : Char) (stat : ItemSoldStats)
    (hk : k = 'A' ∨ k = 'B' ∨ k = 'C' ∨ k = 'D') :
    sold_count k (count_model m stat) = sold_count k stat + if m = k then 1 else 0 := by
  unfold sold_count count_model
  rcases hk with rfl | rfl | rfl | rfl <;>
    by_cases hA : m = 'A' <;> by_cases hB : m = 'B' <;> by_cases hC : m = 'C' <;>
    by_cases hD : m = 'D' <;> simp_all

theorem sold_total_count_model (m : Char) (stat : ItemSoldStats)
    (hm : m = 'A' ∨ m = 'B' ∨ m = 'C' ∨ m = 'D') :
    sold_total (count_model m stat) = sold_total stat + 1 := by
  unfold sold_total count_model
  rcases hm with rfl | rfl | rfl | rfl <;> simp <;> omega

theorem customers_append (done : List Order) (o : Order) :
    customers (done ++ [o]) = customers done ++ [o.customer] := by
  simp [customers]

theorem countP_append_one (done : List Order) (o : Order) (c : String) (m : Char) :
    ((done ++ [o]).countP (fun x => decide (x.customer = c ∧ x.model = m)) : Int)
      = (done.countP (fun x => decide (x.customer = c ∧ x.model = m)) : Int)
        + if o.customer = c ∧ o.model = m then 1 else 0 := by
  rw [List.countP_append]
  by_cases h : o.customer = c ∧ o.model = m
  · simp [List.countP_cons, h]
  · simp [List.countP_cons, h]

theorem salesInv_new_row (done : List Order) (table : Nat → ItemSoldStats) (j : Nat)
    (o : Order) (hm : o.model = 'A' ∨ o.model = 'B' ∨ o.model = 'C' ∨ o.model = 'D')
    (h : SalesInv done (table, j))
    (hfind : get_stats_from_customer_name o.customer table j = none) :
    SalesInv (done ++ [o])
      (Function.update table j (count_model o.model { table j with name := o.customer }),
        j + 1) := by
  obtain ⟨J1, J2, J3, J4, J5⟩ := h
  simp only at J1 J2 J3 J4 J5
  have hno := find_customer_row_none _ _ _ _ hfind
  have hnot : o.customer ∉ customers done := by
    intro hc
    obtain ⟨r, hr, hn⟩ := (J1 _).mpr hc
    exact hno r (Nat.zero_le _) (by omega) hn
  have hsame : (Function.update table j
      (count_model o.model { table j with name := o.customer })) j
      = count_model o.model { table j with name := o.customer } := Function.update_same _ _ _
  have hother : ∀ x, x ≠ j → (Function.update table j
      (count_model o.model { table j with name := o.customer })) x = table x :=
    fun x hx => Function.update_noteq hx _ _
  have hold : ∀ r, r < j → (table r).name ∈ customers done :=
    fun r hr => (J1 _).mp ⟨r, hr, rfl⟩
  refine ⟨?_, ?_, ?_, ?_, ?_⟩
  · intro c
    simp only
    rw [customers_append]
    constructor
    · rintro ⟨r, hr, hn⟩
      by_cases hrj : r = j
      · subst hrj
        rw [hsame, count_model_name] at hn
        exact List.mem_append_right _ (by simp [← hn])
      · rw [hother r hrj] at hn
        exact List.mem_append_left _ ((J1 c).mp ⟨r, by omega, hn⟩)
    · intro hc
      rcases List.mem_append.mp hc with hc1 | hc1
      · obtain ⟨r, hr, hn⟩ := (J1 c).mpr hc1
        exact ⟨r, by omega, by rw [hother r (by omega)]; exact hn⟩
      · refine ⟨j, by omega, ?_⟩
        rw [hsame, count_model_name]
        exact (List.mem_singleton.mp hc1).symm
  · intro r1 r2 h12 h2
    simp only at h2 ⊢
    rw [customers_append, hother r1 (by omega),
      List.indexOf_append_of_mem (hold r1 (by omega))]
    by_cases hrj : r2 = j
    · subst hrj
      rw [hsame, count_model_name]
      simp only
      rw [List.indexOf_append_of_not_mem hnot]
      have := List.indexOf_lt_length.mpr (hold r1 h12)
      omega
    · rw [hother r2 hrj, List.indexOf_append_of_mem (hold r2 (by omega))]
      exact J2 r1 r2 h12 (by omega)
  · intro r hr m hm2
    simp only at hr ⊢
    rw [countP_append_one]
    by_cases hrj : r = j
    · subst hrj
      rw [hsame, count_model_name, sold_count_count_model _ _ _ hm2]
      simp only [true_and]
      have hz : sold_count m { table r with name := o.customer } = 0 := by
        have := J4 r (le_refl _)
        unfold sold_count
        split_ifs <;> simp [this]
      have hc0 : done.countP (fun x => decide (x.customer = o.customer ∧ x.model = m)) = 0 := by
        rw [List.countP_eq_zero]
        intro a ha hp
        simp only [decide_eq_true_eq] at hp
        exact hnot (by rw [← hp.1]; exact List.mem_map_of_mem _ ha)
      rw [hz, hc0]
      simp
    · rw [hother r hrj, J3 r (by omega) m hm2]
      have hne : ¬ (o.customer = (table r).name ∧ o.model = m) := by
        intro hc
        exact hnot (by rw [hc.1]; exact hold r (by omega))
      rw [if_neg hne]
      simp
  · intro r hr
    simp only at hr ⊢
    rw [hother r (by omega)]
    exact J4 r (by omega)
  · simp only
    rw [Finset.sum_range_succ, hsame, sold_total_count_model _ _ hm]
    have hsum : ∑ x in Finset.range j, sold_total (Function.update table j
        (count_model o.model { table j with name := o.customer }) x)
        = ∑ x in Finset.range j, sold_total (table x) := by
      apply Finset.sum_congr rfl
      intro x hx
      rw [hother x (by have := Finset.mem_range.mp hx; omega)]
    have hz : sold_total { table j with name := o.customer } = 0 := by
      have := J4 j (le_refl _)
      unfold sold_total
      simp [this]
    rw [hsum, J5, hz]
    simp

theorem salesInv_known_row (done : List Order) (table : Nat → ItemSoldStats) (j row : Nat)
    (o : Order) (hm : o.model = 'A' ∨ o.model = 'B' ∨ o.model = 'C' ∨ o.model = 'D')
    (h : SalesInv done (table, j))
    (hfind : get_stats_from_customer_name o.customer table j = some row) :
    SalesInv (done ++ [o])
      (Function.update table row (count_model o.model (table row)), j) := by
  obtain ⟨J1, J2, J3, J4, J5⟩ := h
  simp only at J1 J2 J3 J4 J5
  obtain ⟨-, hrow, hname⟩ := find_customer_row_some _ _ _ _ _ hfind
  rw [Nat.zero_add] at hrow
  have hsame : (Function.update table row (count_model o.model (table row))) row
      = count_model o.model (table row) := Function.update_same _ _ _
  have hother : ∀ x, x ≠ row →
      (Function.update table row (count_model o.model (table row))) x = table x :=
    fun x hx => Function.update_noteq hx _ _
  have hnames : ∀ x, ((Function.update table row (count_model o.model (table row))) x).name
      = (table x).name := by
    intro x
    by_cases hx : x = row
    · subst hx; rw [hsame, count_model_name]
    · rw [hother x hx]
  have hold : ∀ r, r < j → (table r).name ∈ customers done :=
    fun r hr => (J1 _).mp ⟨r, hr, rfl⟩
  have hknown : o.customer ∈ customers done := by rw [← hname]; exact hold row hrow
  have hdistinct : ∀ r, r < j → r ≠ row → (table r).name ≠ o.customer := by
    intro r hr hne heq
    rw [← hname] at heq
    rcases Nat.lt_or_gt_of_ne hne with hlt | hgt
    · have := J2 r row hlt hrow
      rw [heq] at this
      omega
    · have := J2 row r hgt hr
      rw [heq] at this
      omega
  refine ⟨?_, ?_, ?_, ?_, ?_⟩
  · intro c
    simp only [hnames]
    rw [customers_append, J1 c]
    constructor
    · exact fun hc => List.mem_append_left _ hc
    · intro hc
      rcases List.mem_append.mp hc with hc1 | hc1
      · exact hc1
      · rw [List.mem_singleton.mp hc1]; exact hknown
  · intro r1 r2 h12 h2
    simp only [hnames] at h2 ⊢
    rw [customers_append, List.indexOf_append_of_mem (hold r1 (by omega)),
      List.indexOf_append_of_mem (hold r2 h2)]
    exact J2 r1 r2 h12 h2
  · intro r hr m hm2
    simp only [hnames] at hr ⊢
    rw [countP_append_one]
    by_cases hrj : r = row
    · subst hrj
      rw [hsame, sold_count_count_model _ _ _ hm2, J3 r hr m hm2]
      simp only [hname, true_and]
    · rw [hother r hrj, J3 r hr m hm2]
      have hne : ¬ (o.customer = (table r).name ∧ o.model = m) :=
        fun hc => hdistinct r hr hrj hc.1.symm
      rw [if_neg hne]
      simp
  · intro r hr
    simp only at hr ⊢
    rw [hother r (by omega)]
    exact J4 r hr
  · simp only
    have hpoint : ∀ x, sold_total (Function.update table row
        (count_model o.model (table row)) x)
        = sold_total (table x) + if x = row then 1 else 0 := by
      intro x
      by_cases hx : x = row
      · subst hx
        rw [hsame, sold_total_count_model _ _ hm, if_pos rfl]
      · rw [hother x hx, if_neg hx, add_zero]
    simp only [hpoint, Finset.sum_add_distrib, Finset.sum_ite_eq', Finset.mem_range, hrow,
      if_true, J5]
    simp

theorem salesInv_step (done : List Order) (acc : (Nat → ItemSoldStats) × Nat) (o : Order)
    (hm : o.model = 'A' ∨ o.model = 'B' ∨ o.model = 'C' ∨ o.model = 'D')
    (h : SalesInv done acc) : SalesInv (done ++ [o]) (count_sold_item acc o) := by
  obtain ⟨table, j⟩ := acc
  unfold count_sold_item
  cases hfind : get_stats_from_customer_name o.customer table j with
  | none => exact salesInv_new_row done table j o hm h hfind
  | some row => exact salesInv_known_row done table j row o hm h hfind

theorem salesInv_foldl (rest done : List Order) (acc : (Nat → ItemSoldStats) × Nat)
    (hm : ∀ o ∈ rest, o.model = 'A' ∨ o.model = 'B' ∨ o.model = 'C' ∨ o.model = 'D')
    (h : SalesInv done acc) : SalesInv (done ++ rest) (rest.foldl count_sold_item acc) := by
  induction rest generalizing done acc with
  | nil => rw [List.append_nil]; exact h
  | cons o rest ih =>
    rw [List.foldl_cons, show done ++ o :: rest = (done ++ [o]) ++ rest by simp]
    exact ih _ _ (fun x hx => hm x (List.mem_cons_of_mem _ hx))
      (salesInv_step done acc o (hm o (List.mem_cons_self _ _)) h)

theorem salesInv_initial (table : Nat → ItemSoldStats)
    (hzero : ∀ r, (table r).model_a_products = 0 ∧ (table r).model_b_products = 0 ∧
      (table r).model_c_products = 0 ∧ (table r).model_d_products = 0) :
    SalesInv [] (table, 0) := by
  refine ⟨?_, ?_, ?_, ?_, ?_⟩
  · intro c
    simp [customers]
  · intro r1 r2 h12 h2
    simp only at h2
    omega
  · intro r hr
    simp only at hr
    omega
  · intro r _
    exact hzero r
  · simp

theorem salesInv_row_count (done : List Order) (acc : (Nat → ItemSoldStats) × Nat)
    (h : SalesInv done acc) : acc.2 = (customers done).dedup.length := by
  obtain ⟨J1, J2, -, -, -⟩ := h
  have hnodup : ((List.range acc.2).map fun r => (acc.1 r).name).Nodup := by
    apply List.Nodup.map_on _ (List.nodup_range _)
    intro x hx y hy hxy
    rw [List.mem_range] at hx hy
    by_contra hne
    rcases Nat.lt_or_gt_of_ne hne with hlt | hgt
    · have := J2 x y hlt hy
      rw [hxy] at this
      omega
    · have := J2 y x hgt hx
      rw [hxy] at this
      omega
  have hset : ((List.range acc.2).map fun r => (acc.1 r).name).toFinset
      = (customers done).toFinset := by
    ext c
    simp only [List.mem_toFinset, List.mem_map, List.mem_range]
    exact J1 c
  have h1 := List.toFinset_card_of_nodup hnodup
  rw [hset, List.card_toFinset] at h1
  simpa using h1.symm

/-! ## Claim about the per-customer summary -/

/-- C10: for an order list with models in A..D and a summary table whose counters are
zero, `calculate_items_sold_for_each_customer` returns the number of distinct customer
names; the rows below that number carry exactly the customers of the order list, in
order of first appearance; for each such row and model the counter is the number of
orders (not the sum of quantities) placed by that customer for that model; and the
counters of all rows add up to the number of orders. -/
theorem calculate_items_sold_counts_orders (orders : List Order)
    (itemSoldStats : Nat → ItemSoldStats)
    (hmodels : ∀ o ∈ orders,
      o.model = 'A' ∨ o.model = 'B' ∨ o.model = 'C' ∨ o.model = 'D')
    (hzero : ∀ r, (itemSoldStats r).model_a_products = 0 ∧
      (itemSoldStats r).model_b_products = 0 ∧ (itemSoldStats r).model_c_products = 0 ∧
      (itemSoldStats r).model_d_products = 0) :
    (calculate_items_sold_for_each_customer orders itemSoldStats).2
      = (customers orders).dedup.length ∧
    (∀ c, (∃ r, r < (calculate_items_sold_for_each_customer orders itemSoldStats).2 ∧
        ((calculate_items_sold_for_each_customer orders itemSoldStats).1 r).name = c)
      ↔ c ∈ customers orders) ∧
    (∀ r1 r2, r1 < r2 →
      r2 < (calculate_items_sold_for_each_customer orders itemSoldStats).2 →
      (customers orders).indexOf
          ((calculate_items_sold_for_each_customer orders itemSoldStats).1 r1).name
        < (customers orders).indexOf
          ((calculate_items_sold_for_each_customer orders itemSoldStats).1 r2).name) ∧
    (∀ r, r < (calculate_items_sold_for_each_customer orders itemSoldStats).2 →
      ∀ m, (m = 'A' ∨ m = 'B' ∨ m = 'C' ∨ m = 'D') →
      sold_count m ((calculate_items_sold_for_each_customer orders itemSoldStats).1 r)
        = orders.countP (fun o => decide
          (o.customer
              = ((calculate_items_sold_for_each_customer orders itemSoldStats).1 r).name ∧
            o.model = m))) ∧
    ∑ r in Finset.range (calculate_items_sold_for_each_customer orders itemSoldStats).2,
      sold_total ((calculate_items_sold_for_each_customer orders itemSoldStats).1 r)
      = orders.length := by
  have h := salesInv_foldl orders [] (itemSoldStats, 0) hmodels
    (salesInv_initial itemSoldStats hzero)
  rw [List.nil_append] at h
  have hcount := salesInv_row_count orders _ h
  obtain ⟨J1, J2, J3, -, J5⟩ := h
  exact ⟨hcount, J1, J2, J3, J5⟩

/-- C10, witness: one order (model A, quantity 5, customer X) gives one row, for X, with
one unit of model A. -/
theorem calculate_items_sold_counts_orders_witness :
    (∀ o ∈ [scenario_order],
      o.model = 'A' ∨ o.model = 'B' ∨ o.model = 'C' ∨ o.model = 'D') ∧
    (calculate_items_sold_for_each_customer [scenario_order] zero_table).2 = 1 ∧
    (calculate_items_sold_for_each_customer [scenario_order] zero_table).1 0
      = { name := "X", model_a_products := 1, model_b_products := 0,
          model_c_products := 0, model_d_products := 0 } ∧
    ∑ r in Finset.range (calculate_items_sold_for_each_customer [scenario_order] zero_table).2,
      sold_total ((calculate_items_sold_for_each_customer [scenario_order] zero_table).1 r)
      = [scenario_order].length :=
  ⟨by decide, by decide, by decide,
    (calculate_items_sold_counts_orders [scenario_order] zero_table (by decide)
      (fun _ => ⟨rfl, rfl, rfl, rfl⟩)).2.2.2.2⟩

/-! ## Claim about the twelve-month rollup -/

/-- C13: `get_model_by_name` returns `NULL` if and only if no catalog entry has the
identifier; otherwise it returns the first catalog entry whose `model` field equals the
identifier.  The function only reads the catalog. -/
theorem get_model_by_name_first (name : Char) (models : List ModelInfo) :
    (get_model_by_name name models = none ↔ ∀ m ∈ models, m.model ≠ name) ∧
    (∀ m, get_model_by_name name models = some m →
      ∃ before after, models = before ++ m :: after ∧ m.model = name ∧
        ∀ x ∈ before, x.model ≠ name) := by
  induction models with
  | nil =>
    refine ⟨by simp [get_model_by_name], ?_⟩
    intro m h
    simp [get_model_by_name] at h
  | cons a rest ih =>
    unfold get_model_by_name
    by_cases ha : a.model = name
    · rw [if_pos ha]
      constructor
      · constructor
        · intro h; cases h
        · intro h; exact absurd ha (h a (List.mem_cons_self _ _))
      · intro m hm
        cases hm
        exact ⟨[], rest, rfl, ha, by simp⟩
    · rw [if_neg ha]
      constructor
      · rw [ih.1]
        constructor
        · intro h m hm
          rcases List.mem_cons.mp hm with rfl | hm2
          · exact ha
          · exact h m hm2
        · intro h m hm
          exact h m (List.mem_cons_of_mem _ hm)
      · intro m hm
        obtain ⟨before, after, h1, h2, h3⟩ := ih.2 m hm
        refine ⟨a :: before, after, by rw [h1]; rfl, h2, ?_⟩
        intro x hx
        rcases List.mem_cons.mp hx with rfl | hx2
        · exact ha
        · exact h3 x hx2

/-- C13, instance: in the scenario's catalog model C is the third entry and there is no
model E. -/
theorem get_model_by_name_first_witness :
    get_model_by_name 'C' scenario_models
      = some { model := 'C', cost := 2, price := 3, man_hours := 1, space_required := 3 } ∧
    get_model_by_name 'E' scenario_models = none ∧
    (∀ m ∈ scenario_models, m.model ≠ 'E') :=
  ⟨by decide, by decide, (get_model_by_name_first 'E' scenario_models).1.mp (by decide)⟩

theorem wrap_int_of_range (x : Int) (h1 : -2 ^ 31 ≤ x) (h2 : x < 2 ^ 31) : wrap_int x = x := by
  unfold wrap_int
  omega

/-- C14 as stated fails, in two ways.  C's integer division truncates toward zero, so
for a catalog whose space requirements add up to -1 `average_product_size` returns 0,
not the floor -1.  And the sum is a 32-bit `int`: for the space requirements
2147483647, 2147483647, 1 and 1, all of them at least 1, it wraps to 0 and
`average_product_size` returns 0, which is below 1 and makes `prepare_for_stock` divide
by zero. -/
theorem average_product_size_not_floor_counterexample :
    negative_space_models.length = 4 ∧
    average_product_size negative_space_models = 0 ∧
    Int.fdiv (-1 + 0 + 0 + 0) 4 = -1 ∧
    average_product_size negative_space_models ≠ Int.fdiv (-1 + 0 + 0 + 0) 4 ∧
    wrapping_models.length = 4 ∧
    (∀ m ∈ wrapping_models, 1 ≤ m.space_required ∧ m.space_required < 2 ^ 31) ∧
    average_product_size wrapping_models = 0 ∧
    ¬ (1 ≤ average_product_size wrapping_models) ∧
    (prepare_for_stock float_share_units scenario_stats
      { storage_capacity := 100, number_of_workers := 10,
        average_product_size := average_product_size wrapping_models }
      empty_stock wrapping_models).isNone = true := by
  decide

/-- C14, amended: for a catalog of 4 models whose `space_required` values add up within
the range of `int` (every partial sum of the loop), `average_product_size` returns their sum divided by 4 and truncated
toward zero, which is the floor when the sum is not negative; when every
`space_required >= 1` and the sum is below `2 ^ 31`, the result is `>= 1` and lies
between the smallest and the largest `space_required`, so the division by
`average_product_size` in `prepare_for_stock` does not divide by zero. -/
theorem average_product_size_truncates (m1 m2 m3 m4 : ModelInfo)
    (h1 : -2 ^ 31 ≤ m1.space_required ∧ m1.space_required < 2 ^ 31)
    (h2 : -2 ^ 31 ≤ m1.space_required + m2.space_required ∧
      m1.space_required + m2.space_required < 2 ^ 31)
    (h3 : -2 ^ 31 ≤ m1.space_required + m2.space_required + m3.space_required ∧
      m1.space_required + m2.space_required + m3.space_required < 2 ^ 31)
    (h4 : -2 ^ 31 ≤ m1.space_required + m2.space_required + m3.space_required
        + m4.space_required ∧
      m1.space_required + m2.space_required + m3.space_required + m4.space_required
        < 2 ^ 31) :
    average_product_size [m1, m2, m3, m4]
      = (m1.space_required + m2.space_required + m3.space_required
          + m4.space_required).tdiv 4 ∧
    (0 ≤ m1.space_required + m2.space_required + m3.space_required + m4.space_required →
      average_product_size [m1, m2, m3, m4]
        = Int.fdiv (m1.space_required + m2.space_required + m3.space_required
            + m4.space_required) 4) ∧
    (1 ≤ m1.space_required → 1 ≤ m2.space_required → 1 ≤ m3.space_required →
      1 ≤ m4.space_required →
      1 ≤ average_product_size [m1, m2, m3, m4] ∧
      min (min m1.space_required m2.space_required)
          (min m3.space_required m4.space_required)
        ≤ average_product_size [m1, m2, m3, m4] ∧
      average_product_size [m1, m2, m3, m4]
        ≤ max (max m1.space_required m2.space_required)
            (max m3.space_required m4.space_required) ∧
      ∀ (share_units : Int → Int → Int → Int) (stats : ModelOrderingStats)
        (system : SystemInfo) (stock : Stock),
        system.average_product_size = average_product_size [m1, m2, m3, m4] →
        (planned_units share_units stats system stock).isSome = true) := by
  have hval : average_product_size [m1, m2, m3, m4]
      = (m1.space_required + m2.space_required + m3.space_required
          + m4.space_required).tdiv 4 := by
    unfold average_product_size TOTAL_MODELS
    simp only [List.foldl_cons, List.foldl_nil, zero_add]
    rw [wrap_int_of_range _ h1.1 h1.2, wrap_int_of_range _ h2.1 h2.2,
      wrap_int_of_range _ h3.1 h3.2, wrap_int_of_range _ h4.1 h4.2]
  refine ⟨hval, ?_, ?_⟩
  · intro hsum
    rw [hval, Int.fdiv_eq_tdiv hsum (by decide)]
  · intro g1 g2 g3 g4
    rw [hval, Int.tdiv_eq_ediv (by omega) (by decide)]
    refine ⟨by omega, by omega, by omega, ?_⟩
    intro share_units stats system stock hsys
    have hsize : system.average_product_size ≠ 0 := by
      rw [hsys]
      omega
    unfold planned_units
    rw [if_neg hsize]
    rfl

/-- C14, witness: the scenario's catalog with space requirements 1, 2, 3 and 9 has the
average product size 3, between 1 and 9. -/
theorem average_product_size_truncates_witness :
    average_product_size scenario_models = 3 ∧
    (1 ≤ average_product_size scenario_models ∧
      min (min (1 : Int) 2) (min 3 9) ≤ average_product_size scenario_models ∧
      average_product_size scenario_models ≤ max (max (1 : Int) 2) (max 3 9)) :=
  ⟨by decide,
    ((average_product_size_truncates scenario_model_a
      { model := 'B', cost := 2, price := 5, man_hours := 3, space_required := 2 }
      { model := 'C', cost := 2, price := 3, man_hours := 1, space_required := 3 }
      { model := 'D', cost := 4, price := 9, man_hours := 4, space_required := 9 }
      (by decide) (by decide) (by decide) (by decide)).2.2
      (by decide) (by decide) (by decide) (by decide)).1,
    ((average_product_size_truncates scenario_model_a
      { model := 'B', cost := 2, price := 5, man_hours := 3, space_required := 2 }
      { model := 'C', cost := 2, price := 3, man_hours := 1, space_required := 3 }
      { model := 'D', cost := 4, price := 9, man_hours := 4, space_required := 9 }
      (by decide) (by decide) (by decide) (by decide)).2.2
      (by decide) (by decide) (by decide) (by decide)).2.1,
    ((average_product_size_truncates scenario_model_a
      { model := 'B', cost := 2, price := 5, man_hours := 3, space_required := 2 }
      { model := 'C', cost := 2, price := 3, man_hours := 1, space_required := 3 }
      { model := 'D', cost := 4, price := 9, man_hours := 4, space_required := 9 }
      (by decide) (by decide) (by decide) (by decide)).2.2
      (by decide) (by decide) (by decide) (by decide)).2.2.1⟩

/-! ## Further claims about the stock -/

theorem sold_item_scan_false_iff (model : Char) (stock : Stock) (i remaining : Nat) :
    (sold_item_scan model stock i remaining).1 = false ↔
      ∀ j, i ≤ j → j < i + remaining → (stock.products j).model ≠ model := by
  induction remaining generalizing i with
  | zero =>
    unfold sold_item_scan
    exact ⟨fun _ j h1 h2 => by omega, fun _ => rfl⟩
  | succ n ih =>
    unfold sold_item_scan
    by_cases hm : (stock.products i).model = model
    · rw [if_pos hm]
      constructor
      · intro h; cases h
      · intro h; exact absurd hm (h i (le_refl _) (by omega))
    · rw [if_neg hm, ih (i + 1)]
      constructor
      · intro h j h1 h2
        by_cases hj : j = i
        · rw [hj]; exact hm
        · exact h j (by omega) (by omega)
      · intro h j h1 h2
        exact h j (by omega) (by omega)

/-- C15 as stated fails: `sold_item_from_stock` compares only the `model` field of the
slots below the cursor.  On a stock whose single slot below the cursor is labelled A with
quantity 0, no slot holds model A with quantity > 0, and the function returns true. -/
theorem sold_item_from_stock_zero_quantity_counterexample :
    (∀ i : ℕ, (i : Int) < unfilled_slot_stock.products_index →
      ¬ ((unfilled_slot_stock.products i).model = 'A' ∧
        (unfilled_slot_stock.products i).quantity > 0)) ∧
    (sold_item_from_stock 'A' unfilled_slot_stock).1 = true := by
  refine ⟨fun i _ h => absurd (show (0 : Int) > 0 from h.2) (by decide), by decide⟩

/-- C15, amended: `sold_item_from_stock` returns false exactly when no slot below the
cursor is labelled with the model; the `quantity` field is not consulted, so a slot
labelled with the model counts as a match whatever its quantity. -/
theorem sold_item_from_stock_false_iff (model : Char) (stock : Stock) :
    (sold_item_from_stock model stock).1 = false ↔
      ∀ i : ℕ, (i : Int) < stock.products_index → (stock.products i).model ≠ model := by
  unfold sold_item_from_stock
  rw [sold_item_scan_false_iff]
  constructor
  · intro h i hi
    exact h i (Nat.zero_le _) (by omega)
  · intro h j _ hj
    exact h j (by omega)

/-- C18 fails on the code: `prepare_product_for_model` writes the slot at the local
`stock_index` and returns the advanced index, but nothing stores it in
`products_index`.  From the empty stock, building one unit of model A fills slot 0
(label A, quantity 1, one space unit occupied, returned index 1) and leaves the cursor
at 0, so the following `sold_item_from_stock` for model A returns false; the same holds
after a whole `prepare_for_stock` call that allocates 33 units to model A. -/
theorem prepare_product_for_model_units_not_sold :
    (prepare_product_for_model 'A' scenario_models empty_stock scenario_system 1 0).map
      (fun r => (r.1.products 0, r.1.occupied_space, r.2, r.1.products_index,
        (sold_item_from_stock 'A' r.1).1))
      = some ({ model := 'A', quantity := 1 }, 1, 1, 0, false) ∧
    (prepare_for_stock exact_share_units scenario_stats scenario_system empty_stock
      scenario_models).map
      (fun r => (r.products 0, r.occupied_space, r.products_index,
        (sold_item_from_stock 'A' r).1))
      = some ({ model := 'A', quantity := 1 }, 33, 0, false) := by
  decide

/-! ## Lemmas: the rounding error of the replenishment share -/

theorem map_set_same {β : Type} (f : Order → β) (l : List Order) (i : Nat) (o x : Order)
    (ho : l[i]? = some o) (hf : f x = f o) : (l.set i x).map f = l.map f := by
  apply List.ext_getElem?
  intro j
  rw [List.getElem?_map, List.getElem?_map, List.getElem?_set]
  by_cases hij : i = j
  · subst hij
    rw [if_pos rfl, ho]
    obtain ⟨hi, -⟩ := List.getElem?_eq_some_iff.mp ho
    rw [if_pos hi]
    simp [hf]
  · rw [if_neg hij]

theorem process_order_keeps (share_units : Int → Int → Int → Int) (models : List ModelInfo)
    {β : Type} (f : Order → β)
    (hdone : ∀ o : Order, f { o with completed := 1, processing := 0 } = f o)
    (hstart : ∀ (o : Order) (a b : Int),
      f { o with process_start_hour := a, process_end_hour := b, processing := 1 } = f o)
    (i : Nat) (s s2 : SimState) (h : process_order share_units models i s = some s2) :
    s2.orders.map f = s.orders.map f := by
  obtain ⟨o, ho, -, -, -, hcase⟩ := process_order_cases share_units models i s s2 h
  rcases hcase with ⟨horders, -, -⟩ | ⟨mi, -, -, -, horders, -, -⟩ |
    ⟨mi, -, -, -, -, horders, -, -⟩
  · rw [horders]
  · rw [horders]; exact map_set_same f _ i o _ ho (hdone o)
  · rw [horders]; exact map_set_same f _ i o _ ho (hstart o _ _)

theorem process_order_total (share_units : Int → Int → Int → Int) (models : List ModelInfo)
    (i : Nat) (s s2 : SimState) (h : process_order share_units models i s = some s2) :
    s2.stats.total_orders = s.stats.total_orders := by
  obtain ⟨o, -, -, -, hstats, -⟩ := process_order_cases share_units models i s s2 h
  rw [hstats, update_ordering_stats_total]

theorem model_counter_update (m x : Char) (stats : ModelOrderingStats)
    (hm : m = 'A' ∨ m = 'B' ∨ m = 'C' ∨ m = 'D') :
    model_counter m (update_ordering_stats x stats)
      = model_counter m stats + if x = m then 1 else 0 := by
  unfold model_counter update_ordering_stats
  rcases hm with rfl | rfl | rfl | rfl <;>
    by_cases hA : x = 'A' <;> by_cases hB : x = 'B' <;> by_cases hC : x = 'C' <;>
    by_cases hD : x = 'D' <;> simp_all

/-! ## Lemmas: the demand counters along a run -/

theorem scan_orders_counts (share_units : Int → Int → Int → Int) (models : List ModelInfo)
    (k : Nat) (s sk : SimState) (h : scan_orders share_units models k s = some sk) :
    sk.orders.map (fun o => o.model) = s.orders.map (fun o => o.model) ∧
    sk.stats.total_orders = s.stats.total_orders ∧
    ∀ m, (m = 'A' ∨ m = 'B' ∨ m = 'C' ∨ m = 'D') →
      model_counter m sk.stats = model_counter m s.stats
        + ((s.orders.take k).countP (fun o => decide (o.model = m)) : ℕ) := by
  induction k generalizing sk with
  | zero =>
    unfold scan_orders at h
    cases h
    exact ⟨rfl, rfl, fun m _ => by simp⟩
  | succ k ih =>
    unfold scan_orders at h
    obtain ⟨s1, h1, h2⟩ := Option.bind_eq_some.mp h
    obtain ⟨e1, e2, e3⟩ := ih s1 h1
    have hkeep := process_order_keeps share_units models (fun o => o.model)
      (fun _ => rfl) (fun _ _ _ => rfl) k s1 sk h2
    obtain ⟨o, ho, -, -, hstats, -⟩ := process_order_cases share_units models k s1 sk h2
    refine ⟨hkeep.trans e1, ?_, ?_⟩
    · rw [hstats, update_ordering_stats_total, e2]
    · intro m hm
      have hmodel : (s.orders[k]?).map (fun o => o.model) = some o.model := by
        rw [← List.getElem?_map, ← e1, List.getElem?_map, ho]
        rfl
      cases ho0 : s.orders[k]? with
      | none => rw [ho0] at hmodel; cases hmodel
      | some o0 =>
        rw [ho0] at hmodel
        simp only [Option.map_some', Option.some.injEq] at hmodel
        rw [hstats, model_counter_update _ _ _ hm, e3 m hm, List.take_succ, ho0,
          List.countP_append]
        by_cases hx : o.model = m
        · simp [hx, hmodel, List.countP_cons]
          omega
        · simp [hx, hmodel, List.countP_cons]

theorem hour_pass_counts (share_units : Int → Int → Int → Int) (models : List ModelInfo)
    (s s1 : SimState) (htotal : s.stats.total_orders = s.orders.length)
    (h : hour_pass share_units models s = some s1) :
    s1.orders.map (fun o => o.model) = s.orders.map (fun o => o.model) ∧
    s1.stats.total_orders = s.stats.total_orders ∧
    ∀ m, (m = 'A' ∨ m = 'B' ∨ m = 'C' ∨ m = 'D') →
      model_counter m s1.stats = model_counter m s.stats
        + (s.orders.countP (fun o => decide (o.model = m)) : ℕ) := by
  unfold hour_pass at h
  obtain ⟨sk, h1, h2⟩ := Option.map_eq_some'.mp h
  subst h2
  rw [htotal, Int.toNat_ofNat] at h1
  have := scan_orders_counts share_units models _ s sk h1
  rw [List.take_length] at this
  exact this

theorem after_hours_counts (share_units : Int → Int → Int → Int) (models : List ModelInfo)
    (n : Nat) (s s1 : SimState) (htotal : s.stats.total_orders = s.orders.length)
    (h : after_hours share_units models n s = some s1) :
    s1.orders.map (fun o => o.model) = s.orders.map (fun o => o.model) ∧
    s1.stats.total_orders = s.stats.total_orders ∧
    ∀ m, (m = 'A' ∨ m = 'B' ∨ m = 'C' ∨ m = 'D') →
      model_counter m s1.stats = model_counter m s.stats
        + n * (s.orders.countP (fun o => decide (o.model = m)) : ℕ) := by
  induction n generalizing s1 with
  | zero =>
    unfold after_hours at h
    cases h
    exact ⟨rfl, rfl, fun m _ => by simp⟩
  | succ n ih =>
    unfold after_hours at h
    obtain ⟨s0, h1, h2⟩ := Option.bind_eq_some.mp h
    obtain ⟨e1, e2, e3⟩ := ih s0 h1
    split at h2
    · have hlen : s0.orders.length = s.orders.length := by
        have := congrArg List.length e1
        simpa using this
      obtain ⟨f1, f2, f3⟩ := hour_pass_counts share_units models s0 s1
        (by rw [e2, htotal, hlen]) h2
      refine ⟨f1.trans e1, f2.trans e2, ?_⟩
      intro m hm
      have hcount : s0.orders.countP (fun o => decide (o.model = m))
          = s.orders.countP (fun o => decide (o.model = m)) := by
        have e : ∀ l : List Order, l.countP (fun o => decide (o.model = m))
            = (l.map (fun o => o.model)).countP (fun c => decide (c = m)) := by
          intro l; rw [List.countP_map]; rfl
        rw [e, e, e1]
      rw [f3 m hm, e3 m hm, hcount]
      push_cast
      ring
    · cases h2

theorem after_hours_succ_front (share_units : Int → Int → Int → Int)
    (models : List ModelInfo) (n : Nat) (s : SimState) :
    after_hours share_units models (n + 1) s =
      (if s.processed_orders < s.stats.total_orders then hour_pass share_units models s
        else none).bind (after_hours share_units models n) := by
  induction n with
  | zero =>
    unfold after_hours after_hours
    simp only [Option.some_bind]
    cases (if s.processed_orders < s.stats.total_orders then hour_pass share_units models s
      else none) <;> rfl
  | succ n ih =>
    conv => lhs; unfold after_hours
    rw [ih]
    cases (if s.processed_orders < s.stats.total_orders then hour_pass share_units models s
      else none) with
    | none => rfl
    | some s1 =>
      simp only [Option.some_bind]
      conv => rhs; unfold after_hours

theorem process_hours_some (share_units : Int → Int → Int → Int) (models : List ModelInfo)
    (fuel : Nat) (s s2 : SimState) (h : process_hours share_units models fuel s = some s2) :
    ¬ s2.processed_orders < s2.stats.total_orders ∧
    ∃ n, after_hours share_units models n s = some s2 := by
  induction fuel generalizing s with
  | zero =>
    unfold process_hours at h
    split at h
    · cases h
    · rename_i hc
      cases h
      exact ⟨hc, 0, rfl⟩
  | succ fuel ih =>
    unfold process_hours at h
    split at h
    · rename_i hc
      obtain ⟨s1, h1, h2⟩ := Option.bind_eq_some.mp h
      obtain ⟨hdone, n, hn⟩ := ih s1 h2
      refine ⟨hdone, n + 1, ?_⟩
      rw [after_hours_succ_front, if_pos hc, h1]
      exact hn
    · rename_i hc
      cases h
      exact ⟨hc, 0, rfl⟩

/-! ## Claim about the demand counters -/

/-- C20: `process_orders` counts every order again in every hour pass, whatever its
state: after `H` hour passes over an order list of `total_orders` entries the demand
counter of each model A, B, C, D equals its value at entry plus `H` times the number of
orders of that model, and `total_orders` is unchanged; a run that returns has performed
some number `H` of passes and ends in that state. -/
theorem process_orders_recounts (share_units : Int → Int → Int → Int)
    (models : List ModelInfo) (orders : List Order) (stats : ModelOrderingStats)
    (system : SystemInfo) (stock : Stock) (htotal : stats.total_orders = orders.length) :
    (∀ (H : ℕ) (s : SimState),
      after_hours share_units models H (initial_state orders stats system stock) = some s →
      s.stats.total_orders = stats.total_orders ∧
      ∀ m, (m = 'A' ∨ m = 'B' ∨ m = 'C' ∨ m = 'D') →
        model_counter m s.stats = model_counter m stats
          + H * (orders.countP (fun o => decide (o.model = m)) : ℕ)) ∧
    (∀ (fuel : ℕ) (s : SimState),
      process_orders share_units models fuel orders stats system stock = some s →
      ∃ H : ℕ,
        after_hours share_units models H (initial_state orders stats system stock) = some s ∧
        s.stats.total_orders = stats.total_orders ∧
        ∀ m, (m = 'A' ∨ m = 'B' ∨ m = 'C' ∨ m = 'D') →
          model_counter m s.stats = model_counter m stats
            + H * (orders.countP (fun o => decide (o.model = m)) : ℕ)) := by
  have key : ∀ (H : ℕ) (s : SimState),
      after_hours share_units models H (initial_state orders stats system stock) = some s →
      s.stats.total_orders = stats.total_orders ∧
      ∀ m, (m = 'A' ∨ m = 'B' ∨ m = 'C' ∨ m = 'D') →
        model_counter m s.stats = model_counter m stats
          + H * (orders.countP (fun o => decide (o.model = m)) : ℕ) := by
    intro H s h
    exact (after_hours_counts share_units models H _ s htotal h).2
  refine ⟨key, ?_⟩
  intro fuel s h
  obtain ⟨-, H, hH⟩ := process_hours_some share_units models fuel _ s h
  exact ⟨H, hH, key H s hH⟩

/-- C20, witness: the one-order scenario (man-hours 2) performs 3 passes, so the counter
of model A goes from 1 to 4. -/
theorem process_orders_recounts_witness :
    scenario_stats.total_orders = ([scenario_order].length : ℕ) ∧
    (process_orders exact_share_units scenario_models 3 [scenario_order] scenario_stats
        scenario_system empty_stock).map (fun s => (s.hour_count, s.stats))
      = some (4, { scenario_stats with model_a_orders := 4 }) ∧
    (∀ (s : SimState),
      after_hours exact_share_units scenario_models 3
        (initial_state [scenario_order] scenario_stats scenario_system empty_stock) = some s →
      model_counter 'A' s.stats = model_counter 'A' scenario_stats
        + 3 * ([scenario_order].countP (fun o => decide (o.model = 'A')) : ℕ)) :=
  ⟨by decide, by decide, fun s h =>
    ((process_orders_recounts exact_share_units scenario_models [scenario_order]
      scenario_stats scenario_system empty_stock (by decide)).1 3 s h).2 'A' (Or.inl rfl)⟩

/-! ## Lemmas: the worker pool and the completed orders along a run -/

theorem get_model_by_name_mem (name : Char) (models : List ModelInfo) (m : ModelInfo)
    (h : get_model_by_name name models = some m) : m ∈ models ∧ m.model = name := by
  induction models with
  | nil => simp [get_model_by_name] at h
  | cons a rest ih =>
    unfold get_model_by_name at h
    split at h
    · rename_i ha
      cases h
      exact ⟨List.mem_cons_self _ _, ha⟩
    · exact ⟨List.mem_cons_of_mem _ (ih h).1, (ih h).2⟩

theorem order_man_hours_nonneg (models : List ModelInfo)
    (hhours : ∀ m ∈ models, 0 ≤ m.man_hours) (o : Order) : 0 ≤ order_man_hours models o := by
  unfold order_man_hours
  cases h : get_model_by_name o.model models with
  | none => exact le_refl _
  | some m => exact hhours m (get_model_by_name_mem _ _ _ h).1

theorem sum_map_nonneg (f : Order → Int) (l : List Order) (h : ∀ o ∈ l, 0 ≤ f o) :
    0 ≤ (l.map f).sum := by
  induction l with
  | nil => simp
  | cons a l ih =>
    simp only [List.map_cons, List.sum_cons]
    have h1 := h a (List.mem_cons_self _ _)
    have h2 := ih (fun o ho => h o (List.mem_cons_of_mem _ ho))
    omega

theorem busy_hours_nonneg (models : List ModelInfo)
    (hhours : ∀ m ∈ models, 0 ≤ m.man_hours) (orders : List Order) :
    0 ≤ busy_hours models orders := by
  unfold busy_hours
  apply sum_map_nonneg
  intro o _
  split
  · exact order_man_hours_nonneg models hhours o
  · exact le_refl _

theorem completed_count_le (orders : List Order) :
    completed_count orders ≤ orders.length := by
  unfold completed_count
  induction orders with
  | nil => simp
  | cons a l ih =>
    simp only [List.map_cons, List.sum_cons, List.length_cons]
    split <;> push_cast <;> omega

theorem completed_count_lt (orders : List Order) (h : ∃ o ∈ orders, o.completed = 0) :
    completed_count orders < orders.length := by
  induction orders with
  | nil => obtain ⟨o, ho, -⟩ := h; cases ho
  | cons a l ih =>
    have hl := completed_count_le l
    unfold completed_count at hl ih ⊢
    simp only [List.map_cons, List.sum_cons, List.length_cons]
    obtain ⟨o, ho, hc⟩ := h
    rcases List.mem_cons.mp ho with rfl | ho2
    · rw [if_neg (not_not.mpr hc)]
      push_cast
      omega
    · have := ih ⟨o, ho2, hc⟩
      split <;> push_cast <;> omega

theorem completed_count_zero (orders : List Order) (h : ∀ o ∈ orders, o.completed = 0) :
    completed_count orders = 0 := by
  unfold completed_count
  apply sum_map_eq_zero
  intro o ho
  rw [if_neg (not_not.mpr (h o ho))]

theorem completed_count_step (share_units : Int → Int → Int → Int)
    (models : List ModelInfo) (i : Nat) (s s2 : SimState)
    (hs : s.processed_orders = completed_count s.orders ∧
      ∀ o ∈ s.orders, o.processing ≠ 0 → o.completed = 0)
    (h : process_order share_units models i s = some s2) :
    s2.processed_orders = completed_count s2.orders ∧
      ∀ o ∈ s2.orders, o.processing ≠ 0 → o.completed = 0 := by
  obtain ⟨o, ho, -, -, -, hcase⟩ := process_order_cases share_units models i s s2 h
  have hmem : o ∈ s.orders := List.getElem?_mem ho
  rcases hcase with ⟨horders, -, hp⟩ | ⟨mi, -, hproc, -, horders, -, hp⟩ |
    ⟨mi, -, hproc, hcomp, -, horders, -, hp⟩
  · rw [horders, hp]; exact hs
  · rw [horders, hp]
    constructor
    · unfold completed_count
      rw [sum_map_set _ _ i o _ ho]
      have h1 := hs.1
      unfold completed_count at h1
      have hc := hs.2 o hmem hproc
      simp only [hc, ne_eq, not_true_eq_false, if_false, one_ne_zero, not_false_eq_true,
        if_true]
      simp only [ne_eq] at h1
      omega
    · intro x hx hx2
      rcases List.mem_or_eq_of_mem_set hx with hx3 | rfl
      · exact hs.2 x hx3 hx2
      · exact absurd rfl hx2
  · rw [horders, hp]
    constructor
    · unfold completed_count
      rw [sum_map_set _ _ i o _ ho]
      have h1 := hs.1
      unfold completed_count at h1
      simp only [hcomp, ne_eq, not_true_eq_false, if_false]
      simp only [ne_eq] at h1
      omega
    · intro x hx hx2
      rcases List.mem_or_eq_of_mem_set hx with hx3 | rfl
      · exact hs.2 x hx3 hx2
      · exact hcomp

theorem pool_bounds_step (share_units : Int → Int → Int → Int) (models : List ModelInfo)
    (hhours : ∀ m ∈ models, 0 ≤ m.man_hours) (W : Int) (i : Nat) (s s2 : SimState)
    (hs : s.system.number_of_workers = W - busy_hours models s.orders ∧
      0 ≤ s.system.number_of_workers ∧
      ∀ o ∈ s.orders, W < order_man_hours models o → o.processing = 0 ∧ o.completed = 0)
    (h : process_order share_units models i s = some s2) :
    0 ≤ s2.system.number_of_workers ∧
      ∀ o ∈ s2.orders, W < order_man_hours models o → o.processing = 0 ∧ o.completed = 0 := by
  obtain ⟨hw, hpos, hheavy⟩ := hs
  have hbusy := busy_hours_nonneg models hhours s.orders
  obtain ⟨o, ho, -, -, -, hcase⟩ := process_order_cases share_units models i s s2 h
  have hmem : o ∈ s.orders := List.getElem?_mem ho
  rcases hcase with ⟨horders, hsys, -⟩ | ⟨mi, hmi, hproc, -, horders, hsys, -⟩ |
    ⟨mi, hmi, hproc, hcomp, hfits, horders, hsys, -⟩
  · rw [horders, hsys]; exact ⟨hpos, hheavy⟩
  · rw [horders, hsys]
    have hmh := hhours mi (get_model_by_name_mem _ _ _ hmi).1
    refine ⟨by simp only; omega, ?_⟩
    intro x hx hx2
    rcases List.mem_or_eq_of_mem_set hx with hx3 | rfl
    · exact hheavy x hx3 hx2
    · have := (hheavy o hmem hx2).1
      exact absurd this hproc
  · rw [horders, hsys]
    refine ⟨by simp only; omega, ?_⟩
    intro x hx hx2
    rcases List.mem_or_eq_of_mem_set hx with hx3 | rfl
    · exact hheavy x hx3 hx2
    · have hx3 : order_man_hours models o = mi.man_hours := by
        unfold order_man_hours; rw [hmi]
      have hx4 : W < order_man_hours models o := hx2
      omega

/-- What every step of a run keeps when no model needs a negative number of man-hours:
the pool is the initial pool `W` minus the busy hours and is not negative, an order that
needs more than `W` man-hours is Pending, `processed_orders` counts the Completed orders,
and the models of the order slots and `total_orders` are those of the entry. -/
theorem pool_invariant_step (share_units : Int → Int → Int → Int) (models : List ModelInfo)
    (hhours : ∀ m ∈ models, 0 ≤ m.man_hours) (W : Int) (slots : List Char) (total : Int)
    (i : Nat) (s s2 : SimState)
    (hs : (s.system.number_of_workers = W - busy_hours models s.orders ∧
        ∀ o ∈ s.orders, o.processing ≠ 0 → o.completed = 0) ∧
      (0 ≤ s.system.number_of_workers ∧
        ∀ o ∈ s.orders, W < order_man_hours models o → o.processing = 0 ∧ o.completed = 0) ∧
      s.processed_orders = completed_count s.orders ∧
      s.orders.map (fun o => o.model) = slots ∧ s.stats.total_orders = total)
    (h : process_order share_units models i s = some s2) :
    (s2.system.number_of_workers = W - busy_hours models s2.orders ∧
        ∀ o ∈ s2.orders, o.processing ≠ 0 → o.completed = 0) ∧
      (0 ≤ s2.system.number_of_workers ∧
        ∀ o ∈ s2.orders, W < order_man_hours models o → o.processing = 0 ∧ o.completed = 0) ∧
      s2.processed_orders = completed_count s2.orders ∧
      s2.orders.map (fun o => o.model) = slots ∧ s2.stats.total_orders = total := by
  obtain ⟨h1, h2, h3, h4, h5⟩ := hs
  have g1 := workers_step share_units models W i s s2 h1 h
  refine ⟨g1, pool_bounds_step share_units models hhours W i s s2 ⟨h1.1, h2⟩ h,
    (completed_count_step share_units models i s s2 ⟨h3, h1.2⟩ h).1, ?_, ?_⟩
  · rw [process_order_keeps share_units models (fun o => o.model) (fun _ => rfl)
      (fun _ _ _ => rfl) i s s2 h, h4]
  · rw [process_order_total share_units models i s s2 h, h5]

/-! ## Claim about the bounds of the worker pool -/

/-- C17 as stated fails: `man_hours` is a plain `int`.  With a model A that needs -1
man-hours, one Pending order of model A and `W = 0` workers, the test
`man_hours <= number_of_workers` passes and the start of the order subtracts -1: after
the first step of the hourly loop the pool is 1, above `W`. -/
theorem process_orders_pool_counterexample :
    (∀ o ∈ [scenario_order], o.processing = 0 ∧ o.completed = 0) ∧
    0 ≤ idle_system.number_of_workers ∧
    (run_point exact_share_units negative_hours_models 0 1
        (initial_state [scenario_order] scenario_stats idle_system empty_stock)).map
      (fun s => s.system.number_of_workers) = some 1 ∧
    ¬ ((1 : Int) ≤ idle_system.number_of_workers) := by
  decide

/-- C17, amended: when no model of the catalog needs a negative number of man-hours,
starting with all orders Pending and `W >= 0` worker-hours, `number_of_workers` stays
within `0..W` at every point of the run; consequently an order whose model needs
`man_hours > W` is never moved to Processing or Completed, and when the order list (of
`total_orders` entries) holds such an order the loop condition
`processed_orders < total_orders` holds after every hour pass and `process_orders`
does not return. -/
theorem process_orders_pool_bounds (share_units : Int → Int → Int → Int)
    (models : List ModelInfo) (orders : List Order) (stats : ModelOrderingStats)
    (system : SystemInfo) (stock : Stock)
    (hpending : ∀ o ∈ orders, o.processing = 0 ∧ o.completed = 0)
    (hW : 0 ≤ system.number_of_workers)
    (hhours : ∀ m ∈ models, 0 ≤ m.man_hours)
    (htotal : stats.total_orders = orders.length) :
    (∀ (n k : ℕ) (s : SimState),
      run_point share_units models n k (initial_state orders stats system stock) = some s →
      0 ≤ s.system.number_of_workers ∧
      s.system.number_of_workers ≤ system.number_of_workers ∧
      ∀ o ∈ s.orders, system.number_of_workers < order_man_hours models o →
        o.processing = 0 ∧ o.completed = 0) ∧
    ((∃ o ∈ orders, system.number_of_workers < order_man_hours models o) →
      (∀ (n : ℕ) (s : SimState),
        after_hours share_units models n (initial_state orders stats system stock) = some s →
        s.processed_orders < s.stats.total_orders) ∧
      ∀ fuel : ℕ, process_orders share_units models fuel orders stats system stock = none) := by
  have h0 : ((initial_state orders stats system stock).system.number_of_workers
        = system.number_of_workers
          - busy_hours models (initial_state orders stats system stock).orders ∧
      ∀ o ∈ (initial_state orders stats system stock).orders,
        o.processing ≠ 0 → o.completed = 0) ∧
      (0 ≤ (initial_state orders stats system stock).system.number_of_workers ∧
        ∀ o ∈ (initial_state orders stats system stock).orders,
          system.number_of_workers < order_man_hours models o →
            o.processing = 0 ∧ o.completed = 0) ∧
      (initial_state orders stats system stock).processed_orders
        = completed_count (initial_state orders stats system stock).orders ∧
      (initial_state orders stats system stock).orders.map (fun o => o.model)
        = orders.map (fun o => o.model) ∧
      (initial_state orders stats system stock).stats.total_orders = orders.length := by
    refine ⟨⟨?_, ?_⟩, ⟨hW, ?_⟩, ?_, rfl, htotal⟩
    · unfold busy_hours initial_state
      rw [sum_map_eq_zero]
      · simp
      · intro o ho
        rw [if_neg (not_not.mpr (hpending o ho).1)]
    · intro o ho hne
      exact absurd (hpending o ho).1 hne
    · intro o ho _
      exact hpending o ho
    · unfold initial_state
      rw [completed_count_zero _ (fun o ho => (hpending o ho).2)]
  have hstep := fun i s s2 hs h => pool_invariant_step share_units models hhours
    system.number_of_workers (orders.map (fun o => o.model)) orders.length i s s2 hs h
  have hcond : (∃ o ∈ orders, system.number_of_workers < order_man_hours models o) →
      ∀ s : SimState,
        ((s.system.number_of_workers = system.number_of_workers - busy_hours models s.orders ∧
            ∀ o ∈ s.orders, o.processing ≠ 0 → o.completed = 0) ∧
          (0 ≤ s.system.number_of_workers ∧
            ∀ o ∈ s.orders, system.number_of_workers < order_man_hours models o →
              o.processing = 0 ∧ o.completed = 0) ∧
          s.processed_orders = completed_count s.orders ∧
          s.orders.map (fun o => o.model) = orders.map (fun o => o.model) ∧
          s.stats.total_orders = orders.length) →
        s.processed_orders < s.stats.total_orders := by
    rintro ⟨o0, ho0, hheavy⟩ s ⟨-, ⟨-, h3⟩, h4, h5, h6⟩
    have hin : o0.model ∈ s.orders.map (fun o => o.model) := by
      rw [h5]; exact List.mem_map_of_mem _ ho0
    obtain ⟨o, ho, hmodel⟩ := List.mem_map.mp hin
    have hsame : order_man_hours models o = order_man_hours models o0 := by
      unfold order_man_hours
      rw [hmodel]
    have hlen : s.orders.length = orders.length := by
      have := congrArg List.length h5
      simpa using this
    have hlt := completed_count_lt s.orders ⟨o, ho, (h3 o ho (by rw [hsame]; exact hheavy)).2⟩
    rw [h4, h6, ← hlen]
    exact hlt
  constructor
  · intro n k s hrun
    have h := run_point_invariant share_units models _ hstep (fun s hs => hs) n k _ s h0 hrun
    refine ⟨h.2.1.1, ?_, h.2.1.2⟩
    have := busy_hours_nonneg models hhours s.orders
    rw [h.1.1]
    omega
  · intro hex
    constructor
    · intro n s hrun
      exact hcond hex s
        (after_hours_invariant share_units models _ hstep (fun s hs => hs) n _ s h0 hrun)
    · intro fuel
      cases hrun : process_orders share_units models fuel orders stats system stock with
      | none => rfl
      | some s =>
        have hinv := process_hours_invariant share_units models _ hstep (fun s hs => hs)
          fuel _ s h0 hrun
        exact absurd (hcond hex s hinv) (process_hours_some share_units models fuel _ s hrun).1

/-- C17, witness: 3 workers, one order of model A (2 man-hours) and one of model D (4
man-hours): the order of model D stays Pending while the other completes, and the run
does not return. -/
theorem process_orders_pool_bounds_witness :
    (∀ o ∈ two_model_orders, o.processing = 0 ∧ o.completed = 0) ∧
    0 ≤ short_staffed_system.number_of_workers ∧
    (∀ m ∈ scenario_models, 0 ≤ m.man_hours) ∧
    (∃ o ∈ two_model_orders,
      short_staffed_system.number_of_workers < order_man_hours scenario_models o) ∧
    (after_hours exact_share_units scenario_models 3
        (initial_state two_model_orders two_model_stats short_staffed_system empty_stock)).map
      (fun s => (s.orders.map (fun o => (o.processing, o.completed)),
        s.system.number_of_workers, s.processed_orders))
      = some ([(0, 1), (0, 0)], 3, 1) ∧
    ∀ fuel : ℕ, process_orders exact_share_units scenario_models fuel two_model_orders
      two_model_stats short_staffed_system empty_stock = none :=
  ⟨by decide, by decide, by decide, by decide, by decide,
    ((process_orders_pool_bounds exact_share_units scenario_models two_model_orders
      two_model_stats short_staffed_system empty_stock (by decide) (by decide) (by decide)
      (by decide)).2 (by decide)).2⟩

/-! ## Lemmas: the calls of the replenishment planner -/

/-- C22: for every order list whose models are all in the catalog, `sort_by_priority`
returns, its output is a permutation of the input (no order is lost, duplicated or
altered), the timestamp found at each array index is the same before and after the
sort, and the output is reached from the input by exchanges of two slots that hold
orders with the same timestamp. -/
theorem sort_by_priority_perm_timestamps (models : List ModelInfo) (orders : List Order)
    (hcat : ∀ o ∈ orders, ∃ m ∈ models, m.model = o.model) :
    ∃ out, sort_by_priority models orders = some out ∧
      out.Perm orders ∧
      out.length = orders.length ∧
      (∀ i : ℕ, (out[i]?).map (fun o => o.timestamp)
        = (orders[i]?).map (fun o => o.timestamp)) ∧
      PeerSwaps (fun o => o.timestamp) orders out := by
  have hps := peerSwaps_exchange_sort (fun o => o.timestamp) (out_of_priority models)
    (out_of_priority_timestamp models) orders
  exact ⟨_, sort_by_priority_eq models orders hcat, hps.perm, hps.length_eq,
    fun i => hps.key_eq i, hps⟩

/-- C22, witness: on the timestamps 1, 2, 1 with quantities 3, 1, 5 the two orders of
timestamp 1 change places and the order of timestamp 2 stays in the middle slot. -/
theorem sort_by_priority_perm_timestamps_witness :
    (∀ o ∈ interleaved_orders, ∃ m ∈ scenario_models, m.model = o.model) ∧
    sort_by_priority scenario_models interleaved_orders
      = some [pending_order 1 'A' 5 "Z", pending_order 2 'A' 1 "Y",
          pending_order 1 'A' 3 "X"] ∧
    ∃ out, sort_by_priority scenario_models interleaved_orders = some out ∧
      out.Perm interleaved_orders ∧
      out.length = interleaved_orders.length ∧
      (∀ i : ℕ, (out[i]?).map (fun o => o.timestamp)
        = (interleaved_orders[i]?).map (fun o => o.timestamp)) ∧
      PeerSwaps (fun o => o.timestamp) interleaved_orders out :=
  ⟨by decide, by decide,
    sort_by_priority_perm_timestamps scenario_models interleaved_orders (by decide)⟩


/-! ## Lemmas: the sum of the demand counters along a run -/

end OrderSystem
